/-
Verification of the PV fouling / shading analysis engine
(`Fouling_analysis.py`, `Shading_analysis.py`).

Shallow embedding notes:
 * Telemetry values (AC power, POA irradiance, baseline medians) are modelled
   by `PF` = a rational number or NaN; missing values in a float column are
   NaN, exactly as in pandas.  Computed columns that can overflow to IEEE
   infinities (the `pr` column, obtained by division) use `XF`, which adds
   ±inf.  Comparisons against NaN are `false`, as in numpy/pandas.
 * Column presence: rows are records, so the timestamp / AC-power / POA /
   expected-power columns are always present; a series "without a timestamp
   column" is modelled by the `hasTs : Bool` flag that the code paths branch
   on.  Missing *values* are `PF.nan`.
 * pandas `last ("7D")` keeps the rows whose timestamp is strictly greater
   than (max timestamp − 7 days); timestamps are rationals counted in days.
   The `sort_index` the source performs before `last` is dropped because
   every downstream aggregate (median, sum, emptiness) is order-invariant.
 * `np.nanmedian` / `Series.median()` drop NaN first, sort (numpy sorts NaN
   last, which the `XF.leb` order reproduces), and average the two middle
   elements for even length.
 * `sklearn` is treated as absent (the module degrades gracefully in that
   case); the regression column `expected_clean_model` is NaN and is read by
   no claim.
-/
import Mathlib

namespace InverterJuggle

/-- A pandas float cell: a finite rational or NaN. -/
inductive PF where
  | nan : PF
  | num : ℚ → PF
deriving DecidableEq, Repr

/-- An extended float as produced by division: finite, NaN, or ±infinity. -/
inductive XF where
  | nan : XF
  | ninf : XF
  | num : ℚ → XF
  | inf : XF
deriving DecidableEq, Repr

namespace PF

/-- `x < c` on a float column: false when `x` is NaN. -/
def ltb : PF → ℚ → Bool
  | nan, _ => false
  | num a, c => a < c

/-- `x ≥ c` on a float column: false when `x` is NaN. -/
def geb : PF → ℚ → Bool
  | nan, _ => false
  | num a, c => c ≤ a

/-- `x > c` on a float column: false when `x` is NaN. -/
def gtb : PF → ℚ → Bool
  | nan, _ => false
  | num a, c => c < a

/-- The finite value of a cell, if any. -/
def toQ? : PF → Option ℚ
  | nan => none
  | num a => some a

/-- Float subtraction; NaN propagates. -/
def sub : PF → PF → PF
  | num a, num b => num (a - b)
  | _, _ => nan

/-- `Series.clip(lower=0)`: NaN is left as NaN. -/
def clip0 : PF → PF
  | nan => nan
  | num a => num (max a 0)

/-- Divide a cell by a nonzero literal constant (e.g. `poa / 1000`). -/
def divC : PF → ℚ → PF
  | nan, _ => nan
  | num a, c => num (a / c)

/-- Multiply a cell by a constant (e.g. `irr_factor * dc_size_kw`). -/
def mulC : PF → ℚ → PF
  | nan, _ => nan
  | num a, c => num (a * c)

end PF

/-- IEEE division of two (finite-or-NaN) cells, as numpy performs it with
`divide`/`invalid` warnings suppressed: `a/0` is ±inf for `a ≠ 0` and NaN
for `0/0`; NaN propagates. -/
def pfDiv : PF → PF → XF
  | PF.nan, _ => XF.nan
  | _, PF.nan => XF.nan
  | PF.num a, PF.num b =>
      if b = 0 then
        if a = 0 then XF.nan else if 0 < a then XF.inf else XF.ninf
      else XF.num (a / b)

namespace XF

/-- Total order used by numpy when sorting a float array: −inf < finite
numbers < +inf < NaN (NaN sorts last). -/
def leb : XF → XF → Bool
  | _, nan => true
  | nan, _ => false
  | ninf, _ => true
  | _, ninf => false
  | num a, num b => a ≤ b
  | num _, inf => true
  | inf, inf => true
  | inf, num _ => false

/-- IEEE addition on extended floats (used for the even-length median). -/
def add : XF → XF → XF
  | nan, _ => nan
  | _, nan => nan
  | inf, ninf => nan
  | ninf, inf => nan
  | inf, _ => inf
  | _, inf => inf
  | ninf, _ => ninf
  | _, ninf => ninf
  | num a, num b => num (a + b)

/-- Halving an extended float. -/
def half : XF → XF
  | nan => nan
  | inf => inf
  | ninf => ninf
  | num a => num (a / 2)

/-- IEEE subtraction on extended floats. -/
def sub : XF → XF → XF
  | nan, _ => nan
  | _, nan => nan
  | inf, inf => nan
  | ninf, ninf => nan
  | inf, _ => inf
  | _, inf => ninf
  | ninf, _ => ninf
  | _, ninf => inf
  | num a, num b => num (a - b)

/-- Multiplication by a positive literal constant (e.g. `threshold * median`). -/
def mulPos : XF → ℚ → XF
  | nan, _ => nan
  | inf, _ => inf
  | ninf, _ => ninf
  | num a, c => num (a * c)

/-- Strict `>` on extended floats; false whenever NaN is involved. -/
def gtbX : XF → XF → Bool
  | nan, _ => false
  | _, nan => false
  | inf, inf => false
  | inf, _ => true
  | _, inf => false
  | ninf, _ => false
  | _, ninf => true
  | num a, num b => b < a

end XF

/-- Ascending sort of rationals (numpy/pandas sort; no NaN present).  A
structurally recursive stable sort stands in for numpy's sorting routine:
only the sorted result matters to every aggregate built on it. -/
def sortQ (l : List ℚ) : List ℚ := l.insertionSort (fun a b => a ≤ b)

/-- Median of a list of rationals: none on the empty list, the middle
element for odd length, the average of the two middle elements for even
length (numpy's default linear interpolation). -/
def medQ (l : List ℚ) : Option ℚ :=
  if (sortQ l).length = 0 then none
  else if (sortQ l).length % 2 = 1 then
    some ((sortQ l).getD ((sortQ l).length / 2) 0)
  else
    some (((sortQ l).getD ((sortQ l).length / 2 - 1) 0 +
      (sortQ l).getD ((sortQ l).length / 2) 0) / 2)

/-- `Series.median()` / `np.nanmedian` on a finite-or-NaN column: drop NaN,
then take the median; NaN when nothing is left. -/
def nanmedianPF (l : List PF) : PF :=
  match medQ (l.filterMap PF.toQ?) with
  | none => PF.nan
  | some m => PF.num m

/-- `Series.median()` / `np.nanmedian` on a column that may hold ±inf:
drop NaN, sort in the numpy order, middle element or average of the two
middle elements. -/
def nanmedianX (l : List XF) : XF :=
  let v := (l.filter (fun x => !(x = XF.nan))).insertionSort
    (fun a b => XF.leb a b = true)
  let n := v.length
  if n = 0 then XF.nan
  else if n % 2 = 1 then v.getD (n / 2) XF.nan
  else XF.half (XF.add (v.getD (n / 2 - 1) XF.nan) (v.getD (n / 2) XF.nan))

/-- `POA_MIN` (W/m²). -/
def POA_MIN : ℚ := 200

/-- `POA_BIN_WIDTH` (W/m²). -/
def POA_BIN_WIDTH : ℚ := 100

/-- A raw telemetry row: timestamp (in days), POA irradiance, AC power.
The timestamp is meaningful only when the series has a timestamp column
(`hasTs = true` at the call sites). -/
structure Row where
  ts : ℚ
  poa : PF
  ac : PF
deriving DecidableEq, Repr

/-- `calculate_pr`: append `pr = ac / ((poa/1000) * dc_size_kw)` to every
row, then set `pr` to NaN wherever `poa < POA_MIN`.  (Masking after the
division, as in the source, equals this per-row conditional.) -/
def calculate_pr (dc : ℚ) (rows : List Row) : List (Row × XF) :=
  rows.map (fun r =>
    let pr := pfDiv r.ac ((r.poa.divC 1000).mulC dc)
    (r, if r.poa.ltb POA_MIN then XF.nan else pr))

/-- An enriched row as consumed by the fouling scorer: timestamp, actual AC
power, and the POA-matched expected clean power merged in by
`estimate_clean_baseline_poa_matched`. -/
structure ERow where
  ts : ℚ
  ac : PF
  expected : PF
deriving DecidableEq, Repr

/-- `df.tail(n)` (pandas): the last `n` rows for `n ≥ 0`, and all rows but
the first `−n` for negative `n`. -/
def pandasTail (n : ℤ) (l : List α) : List α :=
  if 0 ≤ n then l.drop (l.length - n.toNat) else l.drop (-n).toNat

/-- The trailing window used by the fouling scorer: with a timestamp column
this is `df.set_index(ts).sort_index().last(f"{days}D")`, i.e. the rows
whose timestamp exceeds (max − days); without one it is
`df.tail(days * 48)`. -/
def recentE (hasTs : Bool) (days : ℤ) (l : List ERow) : List ERow :=
  if hasTs then
    match (l.map (·.ts)).max? with
    | none => []
    | some m => l.filter (fun r => decide ((m : ℚ) - days < r.ts))
  else pandasTail (days * 48) l

/-- The valid rows of the trailing window: `expected > 0` and `actual ≥ 0`
(both comparisons false on NaN). -/
def validRows (hasTs : Bool) (days : ℤ) (l : List ERow) : List ERow :=
  (recentE hasTs days l).filter (fun r => r.expected.gtb 0 && r.ac.geb 0)

/-- The ratio `actual / expected` of a valid row.  The `validRows` filter
guarantees both cells are finite with a positive denominator, so the
defaulted extraction is exact. -/
def ratioOf (r : ERow) : ℚ := (r.ac.toQ?.getD 0) / (r.expected.toQ?.getD 0)

/-- `calculate_fouling_index`: over the trailing window keep the valid rows,
return NaN when none remain, else `1 − nanmedian(actual/expected)` clamped
to [0, 1] (Python `max(0.0, min(1.0, ·))`). -/
def calculate_fouling_index (hasTs : Bool) (days : ℤ) (l : List ERow) : PF :=
  let valid := validRows hasTs days l
  if valid.isEmpty then PF.nan
  else
    match medQ (valid.map ratioOf) with
    | none => PF.nan
    | some m => PF.num (max 0 (min 1 (1 - m)))

/-- `classify_fouling_level`: NaN → "Insufficient Data", then the ordered
thresholds 0.05 / 0.10 / 0.20, inclusive on the lower class. -/
def classify_fouling_level : PF → String
  | PF.nan => "Insufficient Data"
  | PF.num x =>
      if x ≤ 5/100 then "Clean"
      else if x ≤ 10/100 then "Light Soiling"
      else if x ≤ 20/100 then "Moderate"
      else "Severe"

/-- `Series.sum()` with the default `skipna=True`: NaN cells contribute
nothing; the all-NaN (or empty) sum is 0. -/
def sumSkipna (l : List PF) : ℚ := (l.filterMap PF.toQ?).sum

/-- `estimate_energy_loss`: over the same trailing window sum the clipped
shortfalls `(expected − actual).clip(lower=0)` (NaN rows are skipped by the
sum), and divide by `period_days` unless it is ≤ 0. -/
def estimate_energy_loss (hasTs : Bool) (periodDays : ℤ) (l : List ERow) : PF :=
  let recent := recentE hasTs periodDays l
  let s := sumSkipna (recent.map (fun r => (r.expected.sub r.ac).clip0))
  if periodDays ≤ 0 then PF.num s else PF.num (s / (periodDays : ℚ))

/-- The POA bin of a cell, `(poa // POA_BIN_WIDTH) * POA_BIN_WIDTH`
(Python floor division); a NaN irradiance has no bin (its bin key is NaN,
which the groupby drops and the merge never matches). -/
def poaBin : PF → Option ℚ
  | PF.nan => none
  | PF.num q => some ((⌊q / POA_BIN_WIDTH⌋ : ℚ) * POA_BIN_WIDTH)

/-- The clean-reference rows actually used by the baseline:
`clean_df[clean_df.poa >= POA_MIN]`. -/
def cleanSrcRows (clean : List Row) : List Row :=
  clean.filter (fun r => r.poa.geb POA_MIN)

/-- The non-NaN AC powers of the clean-reference rows falling in bin `b`
(the multiset over which `groupby("poa_bin").median()` aggregates). -/
def binAcs (clean : List Row) (b : ℚ) : List ℚ :=
  ((cleanSrcRows clean).filter (fun r => poaBin r.poa = some b)).filterMap
    (fun r => r.ac.toQ?)

/-- `estimate_clean_baseline_poa_matched`, restricted to the
`expected_clean_power` cell a row with irradiance `p` receives: NaN when the
filtered clean reference is empty, when `p` has no bin, or when the bin has
no clean observation; otherwise the median clean AC power of the bin. -/
def expectedFor (clean : List Row) (p : PF) : PF :=
  if (cleanSrcRows clean).isEmpty then PF.nan
  else
    match poaBin p with
    | none => PF.nan
    | some b =>
        match medQ (binAcs clean b) with
        | none => PF.nan
        | some m => PF.num m

/-- Steps 1–5 of the pipeline as they affect the fouling scorer: every row
of the operational series keeps its timestamp and AC power and gains the
POA-matched `expected_clean_power` looked up from the clean reference. -/
def enrichRows (clean : List Row) (df : List Row) : List ERow :=
  df.map (fun r => ⟨r.ts, r.ac, expectedFor clean r.poa⟩)

/-- `detect_cleaning_events` on the `pr` column: 3-sample rolling median
(min_periods 1, NaN skipped inside the window), first difference, and a
flag where the difference exceeds `threshold × median(rolled)`.  Every
comparison involving NaN is false. -/
def detect_cleaning_events (threshold : ℚ) (pr : List XF) : List Bool :=
  let rolled := (List.range pr.length).map
    (fun i => nanmedianX ((pr.take (i + 1)).drop (i - 2)))
  let prMed := nanmedianX rolled
  (List.range rolled.length).map (fun i =>
    match i with
    | 0 => false
    | Nat.succ j =>
        XF.gtbX (XF.sub (rolled.getD (j + 1) XF.nan) (rolled.getD j XF.nan))
          (prMed.mulPos threshold))

/-- The record returned by `run_fouling_analysis` (the enriched dataframe
itself is reproducible from the inputs and carried by no claim). -/
structure FResult where
  fouling_index : PF
  fouling_level : String
  energy_loss_kwh_per_day : PF
  cleaning_events_detected : ℕ
deriving DecidableEq, Repr

/-- The `ValueError` message raised for a missing/empty clean reference. -/
def cleanDfMessage : String :=
  "A clean-period dataset (clean_df) is required.\nProvide data from a known clean period (modules recently washed, no heavy soiling or major faults) so the baseline can be established."

/-- `run_fouling_analysis`: reject a missing or empty clean reference with
a `ValueError`, otherwise compute PR, build the POA-matched baseline, and
derive the fouling index, its classification, the energy-loss estimate and
the cleaning-event count. -/
def run_fouling_analysis (hasTs : Bool) (dc : ℚ) (df : List Row)
    (cleanOpt : Option (List Row)) : Except String FResult :=
  match cleanOpt with
  | none => Except.error cleanDfMessage
  | some clean =>
      if clean.length = 0 then Except.error cleanDfMessage
      else
        let dfPr := calculate_pr dc df
        let enriched := enrichRows clean df
        let fi := calculate_fouling_index hasTs 7 enriched
        let el := estimate_energy_loss hasTs 7 enriched
        let events := detect_cleaning_events (10/100) (dfPr.map (·.2))
        Except.ok
          ⟨fi, classify_fouling_level fi, el, events.countP (fun b => b)⟩

/-- A row of the `daily_stats` ranking table of `auto_select_clean_period`:
calendar date, median PR of the day, and point count. -/
structure DayStat where
  date : ℤ
  med : XF
  count : ℕ
deriving DecidableEq, Repr

/-- `dt.date` of a timestamp counted in days. -/
def dateOf (r : Row) : ℤ := ⌊r.ts⌋

/-- The descending `sort_values("median", ascending=False)` order: NaN
medians sort last, the rest by decreasing value.  (The embedding uses a
stable merge sort; pandas' default quicksort specifies no tie order.) -/
def descMed (a b : DayStat) : Bool :=
  if b.med = XF.nan then true
  else if a.med = XF.nan then false
  else XF.leb b.med a.med

/-- The working set of `auto_select_clean_period`: PR appended, then rows
with `poa ≥ POA_MIN` and non-NaN PR. -/
def selectorWork (dc : ℚ) (rows : List Row) : List (Row × XF) :=
  (calculate_pr dc rows).filter
    (fun rp => rp.1.poa.geb POA_MIN && !(rp.2 = XF.nan))

/-- The per-day ranking table: group the working set by calendar date
(groupby sorts the date keys ascending), with each day's median PR and
point count. -/
def selectorDaily (dc : ℚ) (rows : List Row) : List DayStat :=
  let work := selectorWork dc rows
  (((work.map (fun rp => dateOf rp.1)).dedup).insertionSort
      (fun a b => a ≤ b)).map
    (fun d =>
      let prs := (work.filter (fun rp => dateOf rp.1 = d)).map (·.2)
      ⟨d, nanmedianX prs, prs.length⟩)

/-- `auto_select_clean_period`: empty results when the working set is empty
or no day reaches `min_points_per_day`; otherwise the `days` best days by
median PR (descending) are selected and the *working-set* rows on those
dates are returned sorted by timestamp, along with the ranking table. -/
def auto_select_clean_period (dc : ℚ) (days minPts : ℕ) (rows : List Row) :
    List (Row × XF) × List DayStat :=
  let work := selectorWork dc rows
  if work.isEmpty then ([], [])
  else
    let daily := (selectorDaily dc rows).filter (fun s => minPts ≤ s.count)
    if daily.isEmpty then ([], [])
    else
      let top := (daily.insertionSort (fun a b => descMed a b = true)).take days
      let selected := top.map (·.date)
      ((work.filter (fun rp => dateOf rp.1 ∈ selected)).insertionSort
          (fun a b => a.1.ts ≤ b.1.ts),
        top)

/-- A row of an efficiency profile (`build_profile` output): device id,
half-hour slot, median normalised efficiency, point count. -/
structure ProfRow where
  emigId : String
  hour_float : ℚ
  inorm : ℚ
  n : ℕ
deriving DecidableEq, Repr

/-- A row of the seasonal comparison table (`compare_profiles` output). -/
structure CompRow where
  emigId : String
  hour_float : ℚ
  I_summer : ℚ
  I_winter : ℚ
  n_summer : ℕ
  n_winter : ℕ
  ratio : PF
  delta : ℚ
deriving DecidableEq, Repr

/-- `compare_profiles`: inner-join the two profiles on (device id, slot);
`ratio = winter/summer` when the summer efficiency is positive, NaN
otherwise (`np.where(I_summer > 0, ..., nan)`); `delta = winter − summer`. -/
def compare_profiles (ps pw : List ProfRow) : List CompRow :=
  ps.flatMap (fun s =>
    (pw.filter (fun w =>
        w.emigId = s.emigId && w.hour_float = s.hour_float)).map
      (fun w =>
        ⟨s.emigId, s.hour_float, s.inorm, w.inorm, s.n, w.n,
          if 0 < s.inorm then PF.num (w.inorm / s.inorm) else PF.nan,
          w.inorm - s.inorm⟩))

/-- The inner `classify` of `summarise_shading`: NaN → insufficient data,
then the ordered thresholds 0.95 / 0.85 / 0.70. -/
def classifyShading : PF → String
  | PF.nan => "insufficient data"
  | PF.num r =>
      if 95/100 ≤ r then "no shading"
      else if 85/100 ≤ r then "mild shading"
      else if 7/10 ≤ r then "moderate shading"
      else "severe shading"

/-- The core-daylight restriction of the summary:
`comp[(hour_float >= 9.0) & (hour_float <= 15.0)]`. -/
def windowSlots (comp : List CompRow) : List CompRow :=
  comp.filter (fun c => decide (9 ≤ c.hour_float) && decide (c.hour_float ≤ 15))

/-- A row of the shading summary (the audit columns that no claim reads —
loss percentage, per-slot energy loss, seasonal averages — are independent
per-device computations omitted from the embedding). -/
structure SummaryRow where
  emigId : String
  median_ratio : PF
  n_hours : ℕ
  classification : String
deriving DecidableEq, Repr

/-- `summarise_shading`: one row per device of the 09:00–15:00 window
(groupby iterates device ids in sorted order) carrying the median ratio
(NaN skipped) and its classification, followed by one "insufficient data"
row for every device of the comparison table with no slot in the window
(in order of first appearance). -/
def summarise_shading (comp : List CompRow) : List SummaryRow :=
  let mid := windowSlots comp
  let keys := ((mid.map (·.emigId)).dedup).insertionSort (fun a b => ¬ b < a)
  let rows := keys.map (fun k =>
    let sub := mid.filter (fun c => c.emigId = k)
    let med := nanmedianPF (sub.map (·.ratio))
    SummaryRow.mk k med sub.length (classifyShading med))
  let extra := (((comp.map (·.emigId)).dedup).filter (fun k => !(k ∈ keys))).map
    (fun k => SummaryRow.mk k PF.nan 0 "insufficient data")
  rows ++ extra

/-- The energy-loss formula in the words of the spec (reference definition
for the refinement claim C7): `sum(max(expected − actual, 0))` over the
trailing window, a row contributing nothing when either cell is missing. -/
def specEnergyLossSum (hasTs : Bool) (periodDays : ℤ) (l : List ERow) : ℚ :=
  ((recentE hasTs periodDays l).map (fun r =>
    match r.expected, r.ac with
    | PF.num e, PF.num a => max (e - a) 0
    | _, _ => 0)).sum

/-! ### Basic facts about the sorting and median helpers -/

theorem sortQ_perm (l : List ℚ) : (sortQ l).Perm l := List.perm_insertionSort _ l

theorem sortQ_length (l : List ℚ) : (sortQ l).length = l.length :=
  (sortQ_perm l).length_eq

theorem sortQ_sorted (l : List ℚ) : (sortQ l).Sorted (fun a b => a ≤ b) :=
  List.sorted_insertionSort _ l

theorem medQ_eq_none_iff (l : List ℚ) : medQ l = none ↔ l = [] := by
  by_cases hnil : l = []
  · subst hnil
    simp [medQ, sortQ]
  · have h0 : (sortQ l).length ≠ 0 := by
      rw [sortQ_length]
      intro h
      exact hnil (List.length_eq_zero.mp h)
    rw [medQ, if_neg h0]
    simp only [hnil, iff_false]
    split <;> simp

theorem medQ_isSome_of_ne_nil {l : List ℚ} (h : l ≠ []) : ∃ m, medQ l = some m := by
  rcases e : medQ l with _ | m
  · exact absurd ((medQ_eq_none_iff l).mp e) h
  · exact ⟨m, rfl⟩

/-! ### C2 -/

/-- C2: `classify_fouling_level` is a total, non-overlapping partition of
the finite indices together with NaN into the five labels, inclusive on the
lower class at each boundary: 0.05 is Clean, 0.0500001 and 0.10 are Light
Soiling, 0.20 is Moderate, 0.201 is Severe, NaN is Insufficient Data, and
every finite index falls in exactly one of the four interval classes. -/
theorem C2_classification_partition :
    classify_fouling_level (PF.num (5/100)) = "Clean" ∧
    classify_fouling_level (PF.num (500001/10000000)) = "Light Soiling" ∧
    classify_fouling_level (PF.num (10/100)) = "Light Soiling" ∧
    classify_fouling_level (PF.num (20/100)) = "Moderate" ∧
    classify_fouling_level (PF.num (201/1000)) = "Severe" ∧
    classify_fouling_level PF.nan = "Insufficient Data" ∧
    ∀ q : ℚ,
      (classify_fouling_level (PF.num q) = "Clean" ↔ q ≤ 5/100) ∧
      (classify_fouling_level (PF.num q) = "Light Soiling" ↔
        5/100 < q ∧ q ≤ 10/100) ∧
      (classify_fouling_level (PF.num q) = "Moderate" ↔
        10/100 < q ∧ q ≤ 20/100) ∧
      (classify_fouling_level (PF.num q) = "Severe" ↔ 20/100 < q) := by
  refine ⟨by with_unfolding_all rfl, by with_unfolding_all rfl,
    by with_unfolding_all rfl, by with_unfolding_all rfl,
    by with_unfolding_all rfl, rfl, ?_⟩
  intro q
  by_cases h1 : q ≤ 5/100
  · have e : classify_fouling_level (PF.num q) = "Clean" := by
      simp [classify_fouling_level, h1]
    rw [e]
    refine ⟨by simp [h1], ?_, ?_, ?_⟩ <;>
      · constructor
        · intro h
          exact absurd h (by decide)
        · intro h
          first
            | exact absurd h1 (not_le.mpr (by linarith [h.1]))
            | exact absurd h1 (not_le.mpr (by linarith [h]))
  · by_cases h2 : q ≤ 10/100
    · have e : classify_fouling_level (PF.num q) = "Light Soiling" := by
        simp [classify_fouling_level, h1, h2]
      rw [e]
      refine ⟨?_, by simp [lt_of_not_le h1, h2], ?_, ?_⟩ <;>
        · constructor
          · intro h
            exact absurd h (by decide)
          · intro h
            first
              | exact absurd h2 (not_le.mpr (by linarith [h.1]))
              | exact absurd h1 h.le
              | exact absurd h2 (not_le.mpr (by linarith [h]))
    · by_cases h3 : q ≤ 20/100
      · have e : classify_fouling_level (PF.num q) = "Moderate" := by
          simp [classify_fouling_level, h1, h2, h3]
        rw [e]
        refine ⟨?_, ?_, by simp [lt_of_not_le h2, h3], ?_⟩ <;>
          · constructor
            · intro h
              exact absurd h (by decide)
            · intro h
              first
                | exact absurd h2 (not_le.mpr (by linarith [h]))  -- unreachable filler
                | exact absurd h1 (le_trans (by linarith [h]) (by norm_num)).le
                | exact absurd h3 (not_le.mpr (by linarith [h]))
                | exact absurd h3 (not_le.mpr (by linarith [h.2]))
                | exact absurd h2 (not_le.mpr (by linarith [h.2]))
                | exact absurd h1 (by linarith [h])
      · have e : classify_fouling_level (PF.num q) = "Severe" := by
          simp [classify_fouling_level, h1, h2, h3]
        rw [e]
        refine ⟨?_, ?_, ?_, by simp [lt_of_not_le h3]⟩ <;>
          · constructor
            · intro h
              exact absurd h (by decide)
            · intro h
              first
                | exact absurd h3 (by linarith [h])
                | exact absurd h3 ((le_trans h (by norm_num) : q ≤ 20/100))
                | exact absurd h3 (le_trans h.2 (by norm_num))
                | exact absurd h3 h.2

/-! ### C3 -/

/-- C3 counterexample: with `dc_size_kw = 0` the denominator
`(POA/1000) × dc` is 0 even though POA = 500 ≥ POA_MIN, and the computed
PR is `inf`, not NaN — the low-irradiance mask does not fire, so a zero
denominator is *not* masked identically to NaN. -/
theorem C3_cex :
    calculate_pr 0 [⟨0, PF.num 500, PF.num 1⟩] =
      [(⟨0, PF.num 500, PF.num 1⟩, XF.inf)] ∧ XF.inf ≠ XF.nan := by
  refine ⟨by with_unfolding_all rfl, ?_⟩
  intro h
  cases h

/-- C3 (amended): `calculate_pr` only appends the `pr` column (the rows are
returned unchanged, in order); every row with POA below the minimum
irradiance threshold gets PR = NaN; and whenever `dc_size_kw ≠ 0`, a zero
denominator `(POA/1000) × dc = 0` can only arise from POA = 0 < POA_MIN and
is therefore masked to NaN as well.  (With `dc_size_kw = 0` the division
leaves inf/NaN unmasked on rows with POA ≥ POA_MIN, per the
counterexample.) -/
theorem C3_amended (dc : ℚ) (rows : List Row) :
    (calculate_pr dc rows).map Prod.fst = rows ∧
    ∀ rp ∈ calculate_pr dc rows,
      (rp.1.poa.ltb POA_MIN = true → rp.2 = XF.nan) ∧
      (dc ≠ 0 → (rp.1.poa.divC 1000).mulC dc = PF.num 0 → rp.2 = XF.nan) := by
  constructor
  · rw [calculate_pr, List.map_map]
    exact List.map_id rows
  · intro rp hrp
    rw [calculate_pr, List.mem_map] at hrp
    obtain ⟨r, _, rfl⟩ := hrp
    constructor
    · intro hlow
      simp only [hlow, if_true]
    · intro hdc hzero
      cases hp : r.poa with
      | nan =>
          rw [hp] at hzero
          simp [PF.divC, PF.mulC] at hzero
      | num q =>
          rw [hp] at hzero
          simp only [PF.divC, PF.mulC, PF.num.injEq] at hzero
          have hq : q = 0 := by
            rcases mul_eq_zero.mp hzero with h | h
            · field_simp at h
              exact h
            · exact absurd h hdc
          have hlow : (PF.num q).ltb POA_MIN = true := by
            rw [hq]
            simp only [PF.ltb, POA_MIN, decide_eq_true_eq]
            norm_num
          simp only [hlow, if_true]

/-- C3 witness: a concrete row with POA = 0 (zero denominator with
`dc = 1 ≠ 0`) is masked to NaN, via `C3_amended`. -/
theorem C3_amended_witness :
    (((⟨0, PF.num 0, PF.num 1⟩ : Row), XF.nan) : Row × XF).2 = XF.nan := by
  have h := (C3_amended 1 [⟨0, PF.num 0, PF.num 1⟩]).2
    ((⟨0, PF.num 0, PF.num 1⟩ : Row), XF.nan)
    (by with_unfolding_all decide)
  exact h.2 one_ne_zero (by with_unfolding_all decide)

/-! ### C5 -/

/-- C5: `run_fouling_analysis` fails with the clean-reference `ValueError`
(whose message describes the corrective action of supplying a clean-period
dataset) exactly when the clean reference is absent or empty; for every
non-empty clean reference it returns a result. -/
theorem C5_clean_reference_mandatory (hasTs : Bool) (dc : ℚ) (df : List Row)
    (cleanOpt : Option (List Row)) :
    (run_fouling_analysis hasTs dc df cleanOpt = Except.error cleanDfMessage ↔
      cleanOpt = none ∨ cleanOpt = some []) ∧
    ∀ clean, cleanOpt = some clean → clean ≠ [] →
      ∃ res, run_fouling_analysis hasTs dc df cleanOpt = Except.ok res := by
  cases cleanOpt with
  | none =>
      refine ⟨⟨fun _ => Or.inl rfl, fun _ => rfl⟩, ?_⟩
      intro clean h
      cases h
  | some clean =>
      by_cases hnil : clean = []
      · subst hnil
        refine ⟨⟨fun _ => Or.inr rfl, fun _ => rfl⟩, ?_⟩
        intro c hc hne
        cases hc
        exact absurd rfl hne
      · have hlen : ¬ clean.length = 0 := fun h => hnil (List.length_eq_zero.mp h)
        constructor
        · rw [run_fouling_analysis]
          simp only [hlen, if_false]
          constructor
          · intro h
            cases h
          · intro h
            rcases h with h | h
            · cases h
            · rw [Option.some.injEq] at h
              exact absurd h hnil
        · intro c hc _
          rw [Option.some.injEq] at hc
          subst hc
          rw [run_fouling_analysis]
          simp only [hlen, if_false]
          exact ⟨_, rfl⟩

/-- C5 witness: a concrete non-empty clean reference produces a result. -/
theorem C5_witness :
    ∃ res, run_fouling_analysis true 1 [⟨0, PF.num 250, PF.num 1⟩]
      (some [⟨0, PF.num 250, PF.num 1⟩]) = Except.ok res :=
  (C5_clean_reference_mandatory true 1 [⟨0, PF.num 250, PF.num 1⟩]
    (some [⟨0, PF.num 250, PF.num 1⟩])).2 [⟨0, PF.num 250, PF.num 1⟩] rfl
    (by intro h; cases h)

/-! ### C7 -/

theorem sumSkipna_cons (x : PF) (xs : List PF) :
    sumSkipna (x :: xs) = x.toQ?.getD 0 + sumSkipna xs := by
  cases x with
  | nan => simp [sumSkipna, PF.toQ?]
  | num a => simp [sumSkipna, PF.toQ?]

/-- C7: `estimate_energy_loss` equals the spec formula
`sum(max(expected − actual, 0))` over the trailing window, divided by
`period_days` unless `period_days ≤ 0` in which case the raw sum is
returned; the result is never negative. -/
theorem C7_energy_loss (hasTs : Bool) (periodDays : ℤ) (l : List ERow) :
    estimate_energy_loss hasTs periodDays l =
      (if periodDays ≤ 0 then PF.num (specEnergyLossSum hasTs periodDays l)
       else PF.num (specEnergyLossSum hasTs periodDays l / (periodDays : ℚ))) ∧
    ∀ q, estimate_energy_loss hasTs periodDays l = PF.num q → 0 ≤ q := by
  have hsum : ∀ L : List ERow,
      sumSkipna (L.map (fun r => (r.expected.sub r.ac).clip0)) =
        (L.map (fun r =>
          match r.expected, r.ac with
          | PF.num e, PF.num a => max (e - a) 0
          | _, _ => 0)).sum := by
    intro L
    induction L with
    | nil => rfl
    | cons r L ih =>
        rw [List.map_cons, sumSkipna_cons, ih, List.map_cons, List.sum_cons]
        congr 1
        cases r.expected <;> cases r.ac <;>
          simp [PF.sub, PF.clip0, PF.toQ?, max_comm]
  have hnonneg : 0 ≤ specEnergyLossSum hasTs periodDays l := by
    apply List.sum_nonneg
    intro x hx
    rw [List.mem_map] at hx
    obtain ⟨r, _, rfl⟩ := hx
    cases r.expected <;> cases r.ac <;> simp
  have hS : 0 ≤ sumSkipna ((recentE hasTs periodDays l).map
      (fun r => (r.expected.sub r.ac).clip0)) := by
    rw [hsum]
    exact hnonneg
  constructor
  · rw [estimate_energy_loss, hsum]
    rfl
  · intro q hq
    rw [estimate_energy_loss] at hq
    by_cases hp : periodDays ≤ 0
    · rw [if_pos hp, PF.num.injEq] at hq
      exact hq ▸ hS
    · rw [if_neg hp, PF.num.injEq] at hq
      rw [← hq]
      apply div_nonneg hS
      exact_mod_cast (lt_of_not_le hp).le

/-- C7 witness: on a one-row series with expected 3 and actual 1 over a
7-day period the estimate is 2/7, which is nonnegative. -/
theorem C7_witness :
    (0 : ℚ) ≤ 2/7 ∧
      estimate_energy_loss true 7 [⟨0, PF.num 1, PF.num 3⟩] = PF.num (2/7) := by
  have h := (C7_energy_loss true 7 [⟨0, PF.num 1, PF.num 3⟩]).2 (2/7)
    (by with_unfolding_all rfl)
  exact ⟨h, by with_unfolding_all rfl⟩

/-! ### C1 -/

/-- C1: `calculate_fouling_index` restricts to the trailing window, keeps
exactly the rows with `expected > 0` and `actual ≥ 0` (this is
`validRows`), returns NaN precisely when no valid row remains, always
yields a value in [0, 1] or NaN, and yields 0 exactly when the median of
`actual/expected` over the valid rows is ≥ 1. -/
theorem C1_fouling_index_range (hasTs : Bool) (days : ℤ) (l : List ERow) :
    (calculate_fouling_index hasTs days l = PF.nan ↔
      validRows hasTs days l = []) ∧
    (calculate_fouling_index hasTs days l = PF.nan ∨
      ∃ q, calculate_fouling_index hasTs days l = PF.num q ∧ 0 ≤ q ∧ q ≤ 1) ∧
    (calculate_fouling_index hasTs days l = PF.num 0 ↔
      ∃ m, medQ ((validRows hasTs days l).map ratioOf) = some m ∧ 1 ≤ m) := by
  by_cases hv : validRows hasTs days l = []
  · have hfi : calculate_fouling_index hasTs days l = PF.nan := by
      rw [calculate_fouling_index, hv]
      rfl
    refine ⟨⟨fun _ => hv, fun _ => hfi⟩, Or.inl hfi, ?_⟩
    rw [hfi]
    constructor
    · intro h
      cases h
    · rintro ⟨m, hm, -⟩
      rw [hv, List.map_nil, (medQ_eq_none_iff []).mpr rfl] at hm
      cases hm
  · obtain ⟨m, hm⟩ := medQ_isSome_of_ne_nil
      (fun h => hv (List.map_eq_nil_iff.mp h) : (validRows hasTs days l).map ratioOf ≠ [])
    have hie : (validRows hasTs days l).isEmpty = false := by
      cases hvl : validRows hasTs days l with
      | nil => exact absurd hvl hv
      | cons a t => rfl
    have hfi : calculate_fouling_index hasTs days l =
        PF.num (max 0 (min 1 (1 - m))) := by
      rw [calculate_fouling_index]
      simp only [hie, Bool.false_eq_true, if_false, hm]
    refine ⟨?_, ?_, ?_⟩
    · rw [hfi]
      constructor
      · intro h
        cases h
      · intro h
        exact absurd h hv
    · refine Or.inr ⟨_, hfi, le_max_left 0 _, ?_⟩
      exact max_le (by norm_num) (min_le_left 1 _)
    · rw [hfi]
      constructor
      · intro h
        rw [PF.num.injEq] at h
        have hle : min 1 (1 - m) ≤ 0 := by
          rcases le_total (min 1 (1 - m)) 0 with h' | h'
          · exact h'
          · rw [max_eq_right h'] at h
            exact le_of_eq h
        rcases min_le_iff.mp hle with h' | h'
        · exact absurd h' (by norm_num)
        · exact ⟨m, hm, by linarith⟩
      · rintro ⟨m', hm', h1⟩
        rw [hm, Option.some.injEq] at hm'
        subst hm'
        have h2 : 1 - m ≤ 0 := by linarith
        rw [min_eq_right (by linarith : 1 - m ≤ 1), max_eq_left h2]

/-! ### C6 -/

theorem mem_recentE {hasTs : Bool} {days : ℤ} {l : List ERow} {r : ERow}
    (h : r ∈ recentE hasTs days l) : r ∈ l := by
  rw [recentE] at h
  cases hasTs with
  | true =>
      simp only [if_true] at h
      cases hmax : (l.map (·.ts)).max? with
      | none =>
          rw [hmax] at h
          cases h
      | some m =>
          rw [hmax] at h
          exact List.mem_of_mem_filter h
  | false =>
      simp only [Bool.false_eq_true, if_false, pandasTail] at h
      split at h <;> exact List.mem_of_mem_drop h

theorem sumSkipna_eq_zero {L : List PF} (h : ∀ x ∈ L, x = PF.nan) :
    sumSkipna L = 0 := by
  induction L with
  | nil => rfl
  | cons x xs ih =>
      rw [sumSkipna_cons, h x (List.mem_cons_self x xs),
        ih (fun y hy => h y (List.mem_cons_of_mem x hy))]
      simp [PF.toQ?]

/-- C6 counterexample: with no POA-bin overlap (operational POA 250 → bin
200; clean POA 450 → bin 400) the fouling index is NaN and the level is
"Insufficient Data", but the daily energy-loss estimate is 0, not NaN as
the claim states — the all-NaN shortfall column sums to 0 under `skipna`. -/
theorem C6_cex :
    run_fouling_analysis true 1 [⟨0, PF.num 250, PF.num 10⟩]
        (some [⟨0, PF.num 450, PF.num 10⟩]) =
      Except.ok ⟨PF.nan, "Insufficient Data", PF.num 0, 0⟩ ∧
    PF.num 0 ≠ PF.nan := by
  refine ⟨by with_unfolding_all rfl, ?_⟩
  intro h
  cases h

/-- C6 (amended): when the operational series has no POA-bin overlap with
the clean reference (every row's looked-up expected power is NaN), no
exception is raised, the fouling index is NaN, the classification is
"Insufficient Data" — but the energy-loss estimate is 0.0 (each NaN
shortfall is skipped by the sum and the empty sum is 0), not NaN. -/
theorem C6_amended (hasTs : Bool) (dc : ℚ) (df clean : List Row)
    (hne : clean ≠ [])
    (hnov : ∀ r ∈ df, expectedFor clean r.poa = PF.nan) :
    ∃ res, run_fouling_analysis hasTs dc df (some clean) = Except.ok res ∧
      res.fouling_index = PF.nan ∧
      res.fouling_level = "Insufficient Data" ∧
      res.energy_loss_kwh_per_day = PF.num 0 := by
  have hlen : ¬ clean.length = 0 := fun h => hne (List.length_eq_zero.mp h)
  have hexp : ∀ e ∈ enrichRows clean df, e.expected = PF.nan := by
    intro e he
    rw [enrichRows, List.mem_map] at he
    obtain ⟨r, hr, rfl⟩ := he
    exact hnov r hr
  have hvalid : validRows hasTs 7 (enrichRows clean df) = [] := by
    rw [validRows, List.filter_eq_nil_iff]
    intro e he
    rw [hexp e (mem_recentE he)]
    simp [PF.gtb]
  have hfi : calculate_fouling_index hasTs 7 (enrichRows clean df) = PF.nan := by
    rw [calculate_fouling_index, hvalid]
    rfl
  have hel : estimate_energy_loss hasTs 7 (enrichRows clean df) = PF.num 0 := by
    rw [estimate_energy_loss]
    rw [sumSkipna_eq_zero]
    · norm_num
    · intro x hx
      rw [List.mem_map] at hx
      obtain ⟨r, hr, rfl⟩ := hx
      rw [hexp r (mem_recentE hr)]
      rfl
  rw [run_fouling_analysis]
  simp only [hlen, if_false]
  refine ⟨_, rfl, hfi, ?_, hel⟩
  show classify_fouling_level (calculate_fouling_index hasTs 7
    (enrichRows clean df)) = "Insufficient Data"
  rw [hfi]
  rfl

/-- C6 witness: the concrete no-overlap instance, via `C6_amended`. -/
theorem C6_amended_witness :
    ∃ res, run_fouling_analysis true 1 [⟨0, PF.num 250, PF.num 10⟩]
        (some [⟨0, PF.num 450, PF.num 10⟩]) = Except.ok res ∧
      res.fouling_index = PF.nan ∧
      res.fouling_level = "Insufficient Data" ∧
      res.energy_loss_kwh_per_day = PF.num 0 :=
  C6_amended true 1 [⟨0, PF.num 250, PF.num 10⟩] [⟨0, PF.num 450, PF.num 10⟩]
    (by intro h; cases h) (by with_unfolding_all decide)

/-! ### C8 and C10: the shading summary -/

theorem nanmedianPF_eq_nan_iff (L : List PF) :
    nanmedianPF L = PF.nan ↔ ∀ x ∈ L, x = PF.nan := by
  rw [nanmedianPF]
  rcases e : medQ (L.filterMap PF.toQ?) with _ | m
  · simp only [true_iff]
    have := (medQ_eq_none_iff _).mp e
    rw [List.filterMap_eq_nil_iff] at this
    intro x hx
    have := this x hx
    cases x with
    | nan => rfl
    | num a => cases this
  · simp only [iff_false, false_iff]
    constructor
    · intro h
      cases h
    · intro h
      have : L.filterMap PF.toQ? = [] := by
        rw [List.filterMap_eq_nil_iff]
        intro a ha
        rw [h a ha]
        rfl
      rw [this, (medQ_eq_none_iff []).mpr rfl] at e
      cases e

theorem nanmedianPF_num_of_not_all_nan {L : List PF}
    (h : ¬ ∀ x ∈ L, x = PF.nan) : ∃ q, nanmedianPF L = PF.num q := by
  rcases e : nanmedianPF L with _ | q
  · exact absurd ((nanmedianPF_eq_nan_iff L).mp e) h
  · exact ⟨q, rfl⟩

/-- The single summary row carrying a given device id reports the NaN-skipping
median ratio of that device's 09:00–15:00 slots and its classification. -/
theorem summary_row_characterization (comp : List CompRow) (row : SummaryRow)
    (hrow : row ∈ summarise_shading comp) :
    row.median_ratio = nanmedianPF (((windowSlots comp).filter
      (fun c => c.emigId = row.emigId)).map (·.ratio)) ∧
    row.classification = classifyShading row.median_ratio := by
  simp only [summarise_shading] at hrow
  rcases List.mem_append.mp hrow with h | h
  · obtain ⟨k, _, rfl⟩ := List.mem_map.mp h
    exact ⟨rfl, rfl⟩
  · obtain ⟨k, hk, rfl⟩ := List.mem_map.mp h
    rw [List.mem_filter] at hk
    have hknot : ¬ k ∈ ((windowSlots comp).map (·.emigId)).dedup.insertionSort
        (fun a b => ¬ b < a) := by
      simpa using hk.2
    have hnil : (windowSlots comp).filter (fun c => c.emigId = k) = [] := by
      rw [List.filter_eq_nil_iff]
      intro c hc hck
      apply hknot
      exact (List.mem_insertionSort _).mpr (List.mem_dedup.mpr
        (List.mem_map.mpr ⟨c, hc, by simpa using hck⟩))
    refine ⟨?_, rfl⟩
    rw [hnil]
    rfl

/-- Every device id of the comparison table owns a row of the summary. -/
theorem summary_row_exists (comp : List CompRow) (d : String)
    (hd : d ∈ comp.map (·.emigId)) :
    ∃ row ∈ summarise_shading comp, row.emigId = d := by
  by_cases hmid : d ∈ (windowSlots comp).map (·.emigId)
  · have hkey : d ∈ ((windowSlots comp).map (·.emigId)).dedup.insertionSort
        (fun a b => ¬ b < a) :=
      (List.mem_insertionSort _).mpr (List.mem_dedup.mpr hmid)
    refine ⟨SummaryRow.mk d
      (nanmedianPF (((windowSlots comp).filter
        (fun c => c.emigId = d)).map (·.ratio)))
      (((windowSlots comp).filter (fun c => c.emigId = d)).length)
      (classifyShading (nanmedianPF (((windowSlots comp).filter
        (fun c => c.emigId = d)).map (·.ratio)))), ?_, rfl⟩
    simp only [summarise_shading]
    exact List.mem_append_left _ (List.mem_map_of_mem _ hkey)
  · have hknot : ¬ d ∈ ((windowSlots comp).map (·.emigId)).dedup.insertionSort
        (fun a b => ¬ b < a) := by
      intro hmem
      exact hmid (List.mem_dedup.mp ((List.mem_insertionSort _).mp hmem))
    refine ⟨SummaryRow.mk d PF.nan 0 "insufficient data", ?_, rfl⟩
    simp only [summarise_shading]
    apply List.mem_append_right
    apply List.mem_map_of_mem
    rw [List.mem_filter]
    exact ⟨List.mem_dedup.mpr hd, by simpa using hknot⟩

/-- `classify` maps every numeric ratio to one of the four shading labels. -/
theorem classifyShading_num_cases (q : ℚ) :
    classifyShading (PF.num q) = "no shading" ∨
    classifyShading (PF.num q) = "mild shading" ∨
    classifyShading (PF.num q) = "moderate shading" ∨
    classifyShading (PF.num q) = "severe shading" := by
  simp only [classifyShading]
  split_ifs
  · exact Or.inl rfl
  · exact Or.inr (Or.inl rfl)
  · exact Or.inr (Or.inr (Or.inl rfl))
  · exact Or.inr (Or.inr (Or.inr rfl))

/-- `classify` never labels a numeric ratio "insufficient data". -/
theorem classifyShading_num_ne (q : ℚ) :
    classifyShading (PF.num q) ≠ "insufficient data" := by
  simp only [classifyShading]
  split_ifs <;> decide

/-- C8: the shading summary contains exactly one row per device of the
comparison table; each row's median ratio is the NaN-skipping median of the
device's 09:00–15:00 slot ratios and its classification is obtained from
that median by the ordered thresholds 0.95/0.85/0.70 (a median of exactly
0.70 is Moderate, NaN — including the no-qualifying-slot case — is
insufficient data). -/
theorem C8_shading_summary (comp : List CompRow) :
    (∀ d ∈ (comp.map (·.emigId)).dedup,
      ∃ row ∈ summarise_shading comp,
        row.emigId = d ∧
        row.median_ratio = nanmedianPF (((windowSlots comp).filter
          (fun c => c.emigId = d)).map (·.ratio)) ∧
        row.classification = classifyShading row.median_ratio) ∧
    ((summarise_shading comp).map (·.emigId)).Nodup ∧
    (∀ row ∈ summarise_shading comp, row.emigId ∈ comp.map (·.emigId)) ∧
    classifyShading (PF.num (7/10)) = "moderate shading" ∧
    classifyShading PF.nan = "insufficient data" ∧
    ∀ q : ℚ,
      (classifyShading (PF.num q) = "no shading" ↔ 95/100 ≤ q) ∧
      (classifyShading (PF.num q) = "mild shading" ↔ 85/100 ≤ q ∧ q < 95/100) ∧
      (classifyShading (PF.num q) = "moderate shading" ↔ 7/10 ≤ q ∧ q < 85/100) ∧
      (classifyShading (PF.num q) = "severe shading" ↔ q < 7/10) := by
  refine ⟨?_, ?_, ?_, by with_unfolding_all rfl, rfl, ?_⟩
  · intro d hd
    obtain ⟨row, hrow, hid⟩ :=
      summary_row_exists comp d (List.mem_dedup.mp hd)
    have hchar := summary_row_characterization comp row hrow
    exact ⟨row, hrow, hid, by rw [hchar.1, hid], hchar.2⟩
  · simp only [summarise_shading]
    rw [List.map_append, List.map_map, List.map_map]
    have e1 : ∀ (K : List String),
        K.map ((fun row : SummaryRow => row.emigId) ∘ (fun k =>
          SummaryRow.mk k
            (nanmedianPF (((windowSlots comp).filter
              (fun c => c.emigId = k)).map (·.ratio)))
            (((windowSlots comp).filter (fun c => c.emigId = k)).length)
            (classifyShading (nanmedianPF (((windowSlots comp).filter
              (fun c => c.emigId = k)).map (·.ratio)))))) = K := by
      intro K
      exact (List.map_congr_left (fun a _ => rfl)).trans (List.map_id K)
    have e2 : ∀ (K : List String),
        K.map ((fun row : SummaryRow => row.emigId) ∘ (fun k =>
          SummaryRow.mk k PF.nan 0 "insufficient data")) = K := by
      intro K
      exact (List.map_congr_left (fun a _ => rfl)).trans (List.map_id K)
    rw [e1, e2, List.nodup_append]
    refine ⟨(List.perm_insertionSort _ _).nodup_iff.mpr (List.nodup_dedup _),
      (List.nodup_dedup _).filter _, ?_⟩
    intro a ha hb
    rw [List.mem_filter] at hb
    have := hb.2
    rw [Bool.not_eq_true' , decide_eq_false_iff_not] at this
    exact this ha
  · intro row hrow
    simp only [summarise_shading] at hrow
    rcases List.mem_append.mp hrow with h | h
    · obtain ⟨k, hk, rfl⟩ := List.mem_map.mp h
      have : k ∈ (windowSlots comp).map (·.emigId) :=
        List.mem_dedup.mp ((List.mem_insertionSort _).mp hk)
      obtain ⟨c, hc, rfl⟩ := List.mem_map.mp this
      exact List.mem_map.mpr ⟨c, List.mem_of_mem_filter hc, rfl⟩
    · obtain ⟨k, hk, rfl⟩ := List.mem_map.mp h
      rw [List.mem_filter] at hk
      exact List.mem_dedup.mp hk.1
  · intro q
    by_cases h1 : 95/100 ≤ q
    · have e : classifyShading (PF.num q) = "no shading" := by
        simp [classifyShading, h1]
      rw [e]
      exact ⟨iff_of_true rfl h1,
        iff_of_false (by decide) (fun h => absurd h1 (not_le.mpr h.2)),
        iff_of_false (by decide)
          (fun h => absurd h1 (not_le.mpr (lt_of_lt_of_le h.2 (by norm_num)))),
        iff_of_false (by decide)
          (fun h => absurd h1 (not_le.mpr (lt_of_lt_of_le h (by norm_num))))⟩
    · by_cases h2 : 85/100 ≤ q
      · have e : classifyShading (PF.num q) = "mild shading" := by
          simp [classifyShading, h1, h2]
        rw [e]
        exact ⟨iff_of_false (by decide) h1,
          iff_of_true rfl ⟨h2, lt_of_not_le h1⟩,
          iff_of_false (by decide) (fun h => absurd h2 (not_le.mpr h.2)),
          iff_of_false (by decide)
            (fun h => absurd h2 (not_le.mpr (lt_of_lt_of_le h (by norm_num))))⟩
      · by_cases h3 : 7/10 ≤ q
        · have e : classifyShading (PF.num q) = "moderate shading" := by
            simp [classifyShading, h1, h2, h3]
          rw [e]
          exact ⟨iff_of_false (by decide) h1,
            iff_of_false (by decide) (fun h => h2 h.1),
            iff_of_true rfl ⟨h3, lt_of_not_le h2⟩,
            iff_of_false (by decide) (fun h => absurd h3 (not_le.mpr h))⟩
        · have e : classifyShading (PF.num q) = "severe shading" := by
            simp [classifyShading, h1, h2, h3]
          rw [e]
          exact ⟨iff_of_false (by decide) (fun h => h3 (le_trans (by norm_num) h)),
            iff_of_false (by decide) (fun h => h3 (le_trans (by norm_num) h.1)),
            iff_of_false (by decide) (fun h => h3 h.1),
            iff_of_true rfl (lt_of_not_le h3)⟩

/-- C8 witness: on a one-slot table at 10:00 with ratio 0.70 the summary
row for "inv1" carries median 0.70 classified by the thresholds. -/
theorem C8_witness :
    ∃ row ∈ summarise_shading
        [⟨"inv1", 10, 1, 7/10, 5, 5, PF.num (7/10), -(3/10)⟩],
      row.emigId = "inv1" ∧
      row.median_ratio = nanmedianPF (((windowSlots
        [⟨"inv1", 10, 1, 7/10, 5, 5, PF.num (7/10), -(3/10)⟩]).filter
          (fun c => c.emigId = "inv1")).map (·.ratio)) ∧
      row.classification = classifyShading row.median_ratio :=
  (C8_shading_summary
    [⟨"inv1", 10, 1, 7/10, 5, 5, PF.num (7/10), -(3/10)⟩]).1 "inv1"
    (by with_unfolding_all decide)

/-- C10: the per-device median ratio skips NaN slots, so a device with at
least one non-NaN ratio in the 09:00–15:00 window gets a numeric median
and one of the four shading labels even if some of its slots are NaN; it
is labelled "insufficient data" exactly when every one of its window slots
has a NaN ratio (vacuously, when it has no window slot at all). -/
theorem C10_nan_slots_skipped (comp : List CompRow) (d : String)
    (hd : d ∈ comp.map (·.emigId)) :
    ∃ row ∈ summarise_shading comp, row.emigId = d ∧
      (row.classification = "insufficient data" ↔
        ∀ c ∈ windowSlots comp, c.emigId = d → c.ratio = PF.nan) ∧
      ((∃ c ∈ windowSlots comp, c.emigId = d ∧ c.ratio ≠ PF.nan) →
        (∃ q, row.median_ratio = PF.num q) ∧
        (row.classification = "no shading" ∨
          row.classification = "mild shading" ∨
          row.classification = "moderate shading" ∨
          row.classification = "severe shading")) := by
  obtain ⟨row, hrow, hid⟩ := summary_row_exists comp d hd
  have hchar := summary_row_characterization comp row hrow
  have h1 := hchar.1
  rw [hid] at h1
  refine ⟨row, hrow, hid, ?_, ?_⟩
  · rw [hchar.2]
    constructor
    · intro h
      rcases e : row.median_ratio with _ | q
      · rw [e] at h1
        have hall := (nanmedianPF_eq_nan_iff _).mp h1.symm
        intro c hc hcd
        exact hall c.ratio (List.mem_map_of_mem _
          (List.mem_filter.mpr ⟨hc, by simpa using hcd⟩))
      · rw [e] at h
        exact absurd h (classifyShading_num_ne q)
    · intro hall
      have : row.median_ratio = PF.nan := by
        rw [h1]
        apply (nanmedianPF_eq_nan_iff _).mpr
        intro x hx
        rw [List.mem_map] at hx
        obtain ⟨c, hc, rfl⟩ := hx
        rw [List.mem_filter] at hc
        exact hall c hc.1 (by simpa using hc.2)
      rw [this]
      rfl
  · rintro ⟨c, hc, hcd, hcr⟩
    have hnotall : ¬ ∀ x ∈ ((windowSlots comp).filter
        (fun c => c.emigId = d)).map (·.ratio), x = PF.nan := by
      intro hall
      exact hcr (hall c.ratio (List.mem_map_of_mem _
        (List.mem_filter.mpr ⟨hc, by simpa using hcd⟩)))
    obtain ⟨q, hq⟩ := nanmedianPF_num_of_not_all_nan hnotall
    rw [← h1] at hq
    refine ⟨⟨q, hq⟩, ?_⟩
    rw [hchar.2, hq]
    exact classifyShading_num_cases q

/-- C10 witness: "inv1" has a NaN slot at 10:00 (zero summer baseline) and
a 0.8 slot at 11:00; the summary still classifies it (median 0.8, mild
range skipped NaN), via `C10_nan_slots_skipped`. -/
theorem C10_witness :
    ∃ row ∈ summarise_shading
        [⟨"inv1", 10, 0, 7/10, 5, 5, PF.nan, 7/10⟩,
         ⟨"inv1", 11, 1, 8/10, 5, 5, PF.num (8/10), -(2/10)⟩],
      row.emigId = "inv1" ∧
      (row.classification = "insufficient data" ↔
        ∀ c ∈ windowSlots
          [⟨"inv1", 10, 0, 7/10, 5, 5, PF.nan, 7/10⟩,
           ⟨"inv1", 11, 1, 8/10, 5, 5, PF.num (8/10), -(2/10)⟩],
          c.emigId = "inv1" → c.ratio = PF.nan) ∧
      ((∃ c ∈ windowSlots
          [⟨"inv1", 10, 0, 7/10, 5, 5, PF.nan, 7/10⟩,
           ⟨"inv1", 11, 1, 8/10, 5, 5, PF.num (8/10), -(2/10)⟩],
          c.emigId = "inv1" ∧ c.ratio ≠ PF.nan) →
        (∃ q, row.median_ratio = PF.num q) ∧
        (row.classification = "no shading" ∨
          row.classification = "mild shading" ∨
          row.classification = "moderate shading" ∨
          row.classification = "severe shading")) :=
  C10_nan_slots_skipped
    [⟨"inv1", 10, 0, 7/10, 5, 5, PF.nan, 7/10⟩,
     ⟨"inv1", 11, 1, 8/10, 5, 5, PF.num (8/10), -(2/10)⟩] "inv1"
    (by with_unfolding_all decide)

/-! ### C4: the clean-period selector -/

theorem XF.leb_total (x y : XF) : XF.leb x y = true ∨ XF.leb y x = true := by
  cases x <;> cases y <;> simp [XF.leb] <;> exact le_total _ _

theorem XF.leb_trans {x y z : XF} (h1 : XF.leb x y = true)
    (h2 : XF.leb y z = true) : XF.leb x z = true := by
  cases x <;> cases y <;> cases z <;> simp_all [XF.leb] <;> exact le_trans h1 h2

theorem descMed_total (a b : DayStat) :
    descMed a b = true ∨ descMed b a = true := by
  by_cases hb : b.med = XF.nan <;> by_cases ha : a.med = XF.nan <;>
    simp [descMed, hb, ha]
  exact XF.leb_total b.med a.med

theorem descMed_trans (a b c : DayStat) (h1 : descMed a b = true)
    (h2 : descMed b c = true) : descMed a c = true := by
  by_cases hc : c.med = XF.nan <;> by_cases hb : b.med = XF.nan <;>
    by_cases ha : a.med = XF.nan <;> simp_all [descMed]
  exact XF.leb_trans h2 h1

theorem selectorDaily_nil_of_work_nil {dc : ℚ} {rows : List Row}
    (h : selectorWork dc rows = []) : selectorDaily dc rows = [] := by
  rw [selectorDaily, h]
  rfl

/-- C4 counterexample: two rows on the same calendar date, one of which
(POA = 100 < 200) is removed by the irradiance/PR filter.  That date is
selected, yet the returned clean set contains only the filtered row — not
the union of ALL rows on the selected date, contradicting the claim. -/
theorem C4_cex :
    (auto_select_clean_period 1 1 1
        [⟨0, PF.num 500, PF.num 100⟩, ⟨3/10, PF.num 100, PF.num 50⟩]).1.map
      Prod.fst = [⟨0, PF.num 500, PF.num 100⟩] ∧
    dateOf ⟨3/10, PF.num 100, PF.num 50⟩ ∈
      ((auto_select_clean_period 1 1 1
        [⟨0, PF.num 500, PF.num 100⟩, ⟨3/10, PF.num 100, PF.num 50⟩]).2.map
          (·.date)) := by
  constructor
  · with_unfolding_all rfl
  · with_unfolding_all decide

/-- C4 (amended): among calendar dates whose filtered point count meets
`min_points_per_day`, `auto_select_clean_period` returns the N dates of
highest daily median PR — the ranking table extends to a descending
rearrangement of all qualifying dates and has length `min N (number of
qualifying dates)` — together with exactly those rows of the
POA/PR-*filtered* working set (not all rows) falling on the selected
dates; the result is empty whenever no day clears the minimum-points bar.
(Tie order among equal medians follows the embedded stable sort; pandas'
default quicksort leaves it unspecified.) -/
theorem C4_amended (dc : ℚ) (days minPts : ℕ) (rows : List Row) :
    ((selectorDaily dc rows).filter (fun s => minPts ≤ s.count) = [] →
      auto_select_clean_period dc days minPts rows = ([], [])) ∧
    ((selectorDaily dc rows).filter (fun s => minPts ≤ s.count) ≠ [] →
      (auto_select_clean_period dc days minPts rows).2.length =
        min days
          ((selectorDaily dc rows).filter (fun s => minPts ≤ s.count)).length ∧
      (∃ rest,
        ((auto_select_clean_period dc days minPts rows).2 ++ rest).Perm
          ((selectorDaily dc rows).filter (fun s => minPts ≤ s.count)) ∧
        ((auto_select_clean_period dc days minPts rows).2 ++ rest).Pairwise
          (fun a b => descMed a b = true)) ∧
      ∀ rp, rp ∈ (auto_select_clean_period dc days minPts rows).1 ↔
        rp ∈ selectorWork dc rows ∧
          dateOf rp.1 ∈
            (auto_select_clean_period dc days minPts rows).2.map (·.date)) := by
  haveI instTot : IsTotal DayStat (fun a b => descMed a b = true) :=
    ⟨descMed_total⟩
  haveI instTrans : IsTrans DayStat (fun a b => descMed a b = true) :=
    ⟨fun a b c => descMed_trans a b c⟩
  constructor
  · intro hdaily
    rw [auto_select_clean_period]
    by_cases hw : (selectorWork dc rows).isEmpty
    · rw [if_pos hw]
    · rw [if_neg hw, hdaily]
      rfl
  · intro hdaily
    have hw : (selectorWork dc rows).isEmpty = false := by
      cases hwl : selectorWork dc rows with
      | nil =>
          exact absurd (by rw [selectorDaily_nil_of_work_nil hwl]; rfl) hdaily
      | cons a t => rfl
    have hde : ¬ ((selectorDaily dc rows).filter
        (fun s => minPts ≤ s.count)).isEmpty = true := by
      cases hdl : (selectorDaily dc rows).filter (fun s => minPts ≤ s.count) with
      | nil => exact absurd hdl hdaily
      | cons a t => simp
    have hres : auto_select_clean_period dc days minPts rows =
        ((((selectorWork dc rows).filter (fun rp => dateOf rp.1 ∈
            ((((selectorDaily dc rows).filter (fun s => minPts ≤ s.count)).insertionSort
              (fun a b => descMed a b = true)).take days).map (·.date))).insertionSort
          (fun a b => a.1.ts ≤ b.1.ts)),
          (((selectorDaily dc rows).filter (fun s => minPts ≤ s.count)).insertionSort
            (fun a b => descMed a b = true)).take days) := by
      rw [auto_select_clean_period, hw]
      simp only [Bool.false_eq_true, if_false]
      rw [if_neg hde]
    refine ⟨?_, ?_, ?_⟩
    · rw [hres, List.length_take, List.length_insertionSort]
    · refine ⟨(((selectorDaily dc rows).filter
        (fun s => minPts ≤ s.count)).insertionSort
          (fun a b => descMed a b = true)).drop days, ?_, ?_⟩
      · rw [hres]
        simp only [List.take_append_drop]
        exact List.perm_insertionSort _ _
      · rw [hres]
        simp only [List.take_append_drop]
        exact List.sorted_insertionSort _ _
    · intro rp
      rw [hres]
      simp only [List.mem_insertionSort, List.mem_filter]
      constructor
      · rintro ⟨h1, h2⟩
        exact ⟨h1, by simpa using h2⟩
      · rintro ⟨h1, h2⟩
        exact ⟨h1, by simpa using h2⟩

/-- C4 witness: four full days with daily median PRs 0.9, 0.95, 0.8, 0.92
and N = 2: the ranking table has the two best days and the returned rows
are the filtered rows on those dates, via `C4_amended`. -/
theorem C4_amended_witness :
    (auto_select_clean_period 1 2 1
        [⟨0, PF.num 1000, PF.num (9/10)⟩, ⟨1, PF.num 1000, PF.num (95/100)⟩,
         ⟨2, PF.num 1000, PF.num (8/10)⟩,
         ⟨3, PF.num 1000, PF.num (92/100)⟩]).2.length =
      min 2 ((selectorDaily 1
        [⟨0, PF.num 1000, PF.num (9/10)⟩, ⟨1, PF.num 1000, PF.num (95/100)⟩,
         ⟨2, PF.num 1000, PF.num (8/10)⟩,
         ⟨3, PF.num 1000, PF.num (92/100)⟩]).filter
          (fun s => 1 ≤ s.count)).length ∧
    (∃ rest,
      ((auto_select_clean_period 1 2 1
        [⟨0, PF.num 1000, PF.num (9/10)⟩, ⟨1, PF.num 1000, PF.num (95/100)⟩,
         ⟨2, PF.num 1000, PF.num (8/10)⟩,
         ⟨3, PF.num 1000, PF.num (92/100)⟩]).2 ++ rest).Perm
        ((selectorDaily 1
          [⟨0, PF.num 1000, PF.num (9/10)⟩, ⟨1, PF.num 1000, PF.num (95/100)⟩,
           ⟨2, PF.num 1000, PF.num (8/10)⟩,
           ⟨3, PF.num 1000, PF.num (92/100)⟩]).filter (fun s => 1 ≤ s.count)) ∧
      ((auto_select_clean_period 1 2 1
        [⟨0, PF.num 1000, PF.num (9/10)⟩, ⟨1, PF.num 1000, PF.num (95/100)⟩,
         ⟨2, PF.num 1000, PF.num (8/10)⟩,
         ⟨3, PF.num 1000, PF.num (92/100)⟩]).2 ++ rest).Pairwise
        (fun a b => descMed a b = true)) ∧
    ∀ rp, rp ∈ (auto_select_clean_period 1 2 1
        [⟨0, PF.num 1000, PF.num (9/10)⟩, ⟨1, PF.num 1000, PF.num (95/100)⟩,
         ⟨2, PF.num 1000, PF.num (8/10)⟩,
         ⟨3, PF.num 1000, PF.num (92/100)⟩]).1 ↔
      rp ∈ selectorWork 1
        [⟨0, PF.num 1000, PF.num (9/10)⟩, ⟨1, PF.num 1000, PF.num (95/100)⟩,
         ⟨2, PF.num 1000, PF.num (8/10)⟩,
         ⟨3, PF.num 1000, PF.num (92/100)⟩] ∧
        dateOf rp.1 ∈ (auto_select_clean_period 1 2 1
          [⟨0, PF.num 1000, PF.num (9/10)⟩, ⟨1, PF.num 1000, PF.num (95/100)⟩,
           ⟨2, PF.num 1000, PF.num (8/10)⟩,
           ⟨3, PF.num 1000, PF.num (92/100)⟩]).2.map (·.date) :=
  (C4_amended 1 2 1
    [⟨0, PF.num 1000, PF.num (9/10)⟩, ⟨1, PF.num 1000, PF.num (95/100)⟩,
     ⟨2, PF.num 1000, PF.num (8/10)⟩, ⟨3, PF.num 1000, PF.num (92/100)⟩]).2
    (by with_unfolding_all decide)

/-! ### C9: counting lemmas about medians

The identity established by these lemmas: if every reading is divided by the
median of its own POA bin, the median of all the ratios is at least 1, so
the clamped fouling index of a series scored against itself is exactly 0. -/

theorem sorted_filter_lt_append (s : List ℚ) (x : ℚ)
    (hs : s.Sorted (fun a b => a ≤ b)) :
    s = s.filter (fun a => decide (a < x)) ++
      s.filter (fun a => !decide (a < x)) := by
  apply List.eq_of_perm_of_sorted
    (List.filter_append_perm (fun a => decide (a < x)) s).symm hs
  rw [List.Sorted, List.pairwise_append]
  refine ⟨hs.filter _, hs.filter _, ?_⟩
  intro a ha b hb
  rw [List.mem_filter] at ha hb
  have ha' : a < x := by simpa using ha.2
  have hb' : ¬ b < x := by simpa using hb.2
  exact le_of_lt (lt_of_lt_of_le ha' (le_of_not_lt hb'))

theorem sorted_getD_lt {s : List ℚ} {x : ℚ}
    (hs : s.Sorted (fun a b => a ≤ b)) {i : ℕ}
    (hi : i < s.countP (fun a => decide (a < x))) :
    s.getD i 0 < x := by
  have hlen : (s.filter (fun a => decide (a < x))).length =
      s.countP (fun a => decide (a < x)) :=
    (List.countP_eq_length_filter _ _).symm
  have hi' : i < (s.filter (fun a => decide (a < x))).length := hlen ▸ hi
  have hgd : s.getD i 0 = (s.filter (fun a => decide (a < x))).getD i 0 := by
    conv_lhs => rw [sorted_filter_lt_append s x hs]
    exact List.getD_append _ _ _ _ hi'
  rw [hgd, List.getD_eq_getElem _ _ hi']
  have hmem := List.getElem_mem hi'
  rw [List.mem_filter] at hmem
  simpa using hmem.2

theorem sorted_le_getD {s : List ℚ} {x : ℚ}
    (hs : s.Sorted (fun a b => a ≤ b)) {i : ℕ} (hi : i < s.length)
    (hc : s.countP (fun a => decide (a < x)) ≤ i) :
    x ≤ s.getD i 0 := by
  have hlen : (s.filter (fun a => decide (a < x))).length =
      s.countP (fun a => decide (a < x)) :=
    (List.countP_eq_length_filter _ _).symm
  have hc' : (s.filter (fun a => decide (a < x))).length ≤ i := hlen ▸ hc
  have hgd : s.getD i 0 = (s.filter (fun a => !decide (a < x))).getD
      (i - (s.filter (fun a => decide (a < x))).length) 0 := by
    conv_lhs => rw [sorted_filter_lt_append s x hs]
    exact List.getD_append_right _ _ _ _ hc'
  have hilt : i - (s.filter (fun a => decide (a < x))).length <
      (s.filter (fun a => !decide (a < x))).length := by
    have htot : (s.filter (fun a => decide (a < x))).length +
        (s.filter (fun a => !decide (a < x))).length = s.length := by
      conv_rhs => rw [sorted_filter_lt_append s x hs]
      rw [List.length_append]
    omega
  rw [hgd, List.getD_eq_getElem _ _ hilt]
  have hmem := List.getElem_mem hilt
  rw [List.mem_filter] at hmem
  have := hmem.2
  simp only [Bool.not_eq_true' , decide_eq_false_iff_not, not_lt] at this
  exact this

theorem sorted_le_last {A : List ℚ} (hs : A.Sorted (fun a b => a ≤ b))
    {a : ℚ} (ha : a ∈ A) : a ≤ A.getD (A.length - 1) 0 := by
  obtain ⟨i, hi, rfl⟩ := List.getElem_of_mem ha
  have hpos : 0 < A.length := by omega
  have hlast : A.length - 1 < A.length := by omega
  rw [List.getD_eq_getElem _ _ hlast]
  rcases Nat.lt_or_ge i (A.length - 1) with h | h
  · have := hs.rel_get_of_lt (a := ⟨i, hi⟩) (b := ⟨A.length - 1, hlast⟩) h
    simpa [List.get_eq_getElem] using this
  · have : i = A.length - 1 := by omega
    subst this
    exact le_refl _

theorem sorted_getD_zero_le {B : List ℚ} (hs : B.Sorted (fun a b => a ≤ b))
    {b : ℚ} (hb : b ∈ B) : B.getD 0 0 ≤ b := by
  obtain ⟨i, hi, rfl⟩ := List.getElem_of_mem hb
  have hpos : 0 < B.length := by omega
  rw [List.getD_eq_getElem _ _ hpos]
  rcases Nat.eq_zero_or_pos i with h | h
  · subst h
    exact le_refl _
  · have := hs.rel_get_of_lt (a := ⟨0, hpos⟩) (b := ⟨i, hi⟩) h
    simpa [List.get_eq_getElem] using this

theorem medQ_odd {l : List ℚ} (h1 : (sortQ l).length % 2 = 1) :
    medQ l = some ((sortQ l).getD ((sortQ l).length / 2) 0) := by
  have h0 : (sortQ l).length ≠ 0 := by
    intro h
    rw [h] at h1
    cases h1
  rw [medQ, if_neg h0, if_pos h1]

theorem medQ_even {l : List ℚ} (h0 : (sortQ l).length ≠ 0)
    (h2 : (sortQ l).length % 2 = 0) :
    medQ l = some (((sortQ l).getD ((sortQ l).length / 2 - 1) 0 +
      (sortQ l).getD ((sortQ l).length / 2) 0) / 2) := by
  rw [medQ, if_neg h0, if_neg (by omega : ¬ (sortQ l).length % 2 = 1)]

theorem two_mul_countP_lt_med_le {B : List ℚ} {m : ℚ}
    (hm : medQ B = some m) :
    2 * B.countP (fun a => decide (a < m)) ≤ B.length := by
  have hsorted := sortQ_sorted B
  have hcnt : (sortQ B).countP (fun a => decide (a < m)) =
      B.countP (fun a => decide (a < m)) := (sortQ_perm B).countP_eq _
  have hlen := sortQ_length B
  have hcle : (sortQ B).countP (fun a => decide (a < m)) ≤
      (sortQ B).length := List.countP_le_length _
  by_contra hgt
  push_neg at hgt
  have hidx : (sortQ B).length / 2 <
      (sortQ B).countP (fun a => decide (a < m)) := by omega
  have hmid := sorted_getD_lt hsorted hidx
  by_cases hpar : (sortQ B).length % 2 = 1
  · rw [medQ_odd hpar, Option.some.injEq] at hm
    rw [hm] at hmid
    exact absurd hmid (lt_irrefl _)
  · have h0 : (sortQ B).length ≠ 0 := by omega
    rw [medQ_even h0 (by omega), Option.some.injEq] at hm
    have hidx1 : (sortQ B).length / 2 - 1 <
        (sortQ B).countP (fun a => decide (a < m)) := by omega
    have hlo := sorted_getD_lt hsorted hidx1
    rw [← hm] at hlo hmid
    linarith

theorem length_le_two_mul_countP_ge {B : List ℚ} {m : ℚ}
    (hm : medQ B = some m) :
    B.length ≤ 2 * B.countP (fun a => decide (m ≤ a)) := by
  have h1 := two_mul_countP_lt_med_le hm
  have h2 : B.length = B.countP (fun a => decide (a < m)) +
      B.countP (fun a => decide (m ≤ a)) := by
    rw [List.length_eq_countP_add_countP (p := fun a => decide (a < m))]
    congr 1
    apply List.countP_congr
    intro a _
    simp [not_lt]
  omega

theorem med_equality_pair {B : List ℚ} {m : ℚ} (hm : medQ B = some m)
    (heq : B.countP (fun a => decide (a < m)) =
      B.countP (fun a => decide (m ≤ a))) :
    ∃ lo hi, lo ∈ B ∧ hi ∈ B ∧ lo < m ∧ m ≤ hi ∧ lo + hi = 2 * m ∧
      (∀ a ∈ B, a < m → a ≤ lo) ∧ (∀ a ∈ B, m ≤ a → hi ≤ a) := by
  have hsorted := sortQ_sorted B
  have hcnt : (sortQ B).countP (fun a => decide (a < m)) =
      B.countP (fun a => decide (a < m)) := (sortQ_perm B).countP_eq _
  have hlen := sortQ_length B
  have hcompl : B.length = B.countP (fun a => decide (a < m)) +
      B.countP (fun a => decide (m ≤ a)) := by
    rw [List.length_eq_countP_add_countP (p := fun a => decide (a < m))]
    congr 1
    apply List.countP_congr
    intro a _
    simp [not_lt]
  have hne : B ≠ [] := by
    intro h
    rw [h, (medQ_eq_none_iff []).mpr rfl] at hm
    cases hm
  have hlen0 : B.length ≠ 0 := fun h => hne (List.length_eq_zero.mp h)
  have hn2c : (sortQ B).length =
      2 * (sortQ B).countP (fun a => decide (a < m)) := by omega
  have hc1 : 1 ≤ (sortQ B).countP (fun a => decide (a < m)) := by omega
  rw [medQ_even (by omega) (by omega), Option.some.injEq] at hm
  have hdiv : (sortQ B).length / 2 =
      (sortQ B).countP (fun a => decide (a < m)) := by omega
  rw [hdiv] at hm
  refine ⟨(sortQ B).getD ((sortQ B).countP (fun a => decide (a < m)) - 1) 0,
    (sortQ B).getD ((sortQ B).countP (fun a => decide (a < m))) 0,
    ?_, ?_, ?_, ?_, ?_, ?_, ?_⟩
  · have hi' : (sortQ B).countP (fun a => decide (a < m)) - 1 <
        (sortQ B).length := by omega
    rw [List.getD_eq_getElem _ _ hi']
    exact (sortQ_perm B).subset (List.getElem_mem hi')
  · have hi' : (sortQ B).countP (fun a => decide (a < m)) <
        (sortQ B).length := by omega
    rw [List.getD_eq_getElem _ _ hi']
    exact (sortQ_perm B).subset (List.getElem_mem hi')
  · exact sorted_getD_lt hsorted (by omega)
  · exact sorted_le_getD hsorted (by omega) (le_refl _)
  · linarith [hm]
  · intro a ha hax
    have ha' : a ∈ sortQ B := (sortQ_perm B).mem_iff.mpr ha
    have hmemA : a ∈ (sortQ B).filter (fun a => decide (a < m)) :=
      List.mem_filter.mpr ⟨ha', by simpa using hax⟩
    have hAlen : ((sortQ B).filter (fun a => decide (a < m))).length =
        (sortQ B).countP (fun a => decide (a < m)) :=
      (List.countP_eq_length_filter _ _).symm
    have hsplit := sorted_filter_lt_append (sortQ B) m hsorted
    have hgd1 : (sortQ B).getD
        ((sortQ B).countP (fun a => decide (a < m)) - 1) 0 =
        ((sortQ B).filter (fun a => decide (a < m)) ++
          (sortQ B).filter (fun a => !decide (a < m))).getD
          ((sortQ B).countP (fun a => decide (a < m)) - 1) 0 :=
      congrArg (fun L => L.getD
        ((sortQ B).countP (fun a => decide (a < m)) - 1) 0) hsplit
    rw [hgd1, List.getD_append _ _ _ _ (by omega), ← hAlen]
    exact sorted_le_last (hsorted.filter _) hmemA
  · intro b hb hbm
    have hb' : b ∈ sortQ B := (sortQ_perm B).mem_iff.mpr hb
    have hmemB : b ∈ (sortQ B).filter (fun a => !decide (a < m)) :=
      List.mem_filter.mpr ⟨hb', by simpa using not_lt.mpr hbm⟩
    have hAlen : ((sortQ B).filter (fun a => decide (a < m))).length =
        (sortQ B).countP (fun a => decide (a < m)) :=
      (List.countP_eq_length_filter _ _).symm
    have hsplit := sorted_filter_lt_append (sortQ B) m hsorted
    have hgd1 : (sortQ B).getD
        ((sortQ B).countP (fun a => decide (a < m))) 0 =
        ((sortQ B).filter (fun a => decide (a < m)) ++
          (sortQ B).filter (fun a => !decide (a < m))).getD
          ((sortQ B).countP (fun a => decide (a < m))) 0 :=
      congrArg (fun L => L.getD
        ((sortQ B).countP (fun a => decide (a < m))) 0) hsplit
    rw [hgd1, List.getD_append_right _ _ _ _ (by omega), hAlen, Nat.sub_self]
    exact sorted_getD_zero_le (hsorted.filter _) hmemB

theorem countP_flatMap {α β : Type} (p : β → Bool) (f : α → List β)
    (l : List α) :
    (l.flatMap f).countP p = (l.map (fun x => (f x).countP p)).sum := by
  induction l with
  | nil => rfl
  | cons a l ih =>
      rw [List.flatMap_cons, List.countP_append, List.map_cons,
        List.sum_cons, ih]

theorem countP_eq_imp_rev {α : Type} {p q : α → Bool} {l : List α}
    (himp : ∀ a ∈ l, p a = true → q a = true)
    (heq : l.countP p = l.countP q) :
    ∀ a ∈ l, q a = true → p a = true := by
  induction l with
  | nil =>
      intro a ha
      cases ha
  | cons x l ih =>
      rw [List.countP_cons, List.countP_cons] at heq
      have hx := himp x (List.mem_cons_self x l)
      have himp' : ∀ a ∈ l, p a = true → q a = true :=
        fun a ha => himp a (List.mem_cons_of_mem x ha)
      have hle : l.countP p ≤ l.countP q := List.countP_mono_left himp'
      intro a ha hqa
      cases hp : p x with
      | true =>
          have hq : q x = true := hx hp
          simp only [hp, hq, if_true] at heq
          have heq' : l.countP p = l.countP q := by omega
          rcases List.mem_cons.mp ha with rfl | ha'
          · exact hp
          · exact ih himp' heq' a ha' hqa
      | false =>
          cases hq : q x with
          | true =>
              simp [hp, hq] at heq
              omega
          | false =>
              simp [hp, hq] at heq
              rcases List.mem_cons.mp ha with rfl | ha'
              · rw [hq] at hqa
                cases hqa
              · exact ih himp' heq a ha' hqa

theorem sum_map_eq_of_pointwise_le {γ : Type} {G : List γ} {f g : γ → ℕ}
    (hle : ∀ x ∈ G, f x ≤ g x)
    (hsum : (G.map f).sum = (G.map g).sum) :
    ∀ x ∈ G, f x = g x := by
  induction G with
  | nil =>
      intro x hx
      cases hx
  | cons a G ih =>
      rw [List.map_cons, List.map_cons, List.sum_cons, List.sum_cons] at hsum
      have ha := hle a (List.mem_cons_self a G)
      have hG : ∀ x ∈ G, f x ≤ g x :=
        fun x hx => hle x (List.mem_cons_of_mem a hx)
      have htail_le : (G.map f).sum ≤ (G.map g).sum :=
        List.sum_le_sum hG
      have hfa : f a = g a := by omega
      have htail : (G.map f).sum = (G.map g).sum := by omega
      intro x hx
      rcases List.mem_cons.mp hx with rfl | hx'
      · exact hfa
      · exact ih hG htail x hx'

theorem perm_flatMap_key {α β : Type} [DecidableEq β] (k : α → β) :
    ∀ (K : List β) (L : List α), K.Nodup → (∀ a ∈ L, k a ∈ K) →
      L.Perm (K.flatMap (fun b => L.filter (fun a => decide (k a = b)))) := by
  intro K
  induction K with
  | nil =>
      intro L _ hcov
      cases L with
      | nil => exact List.Perm.refl _
      | cons a t => exact absurd (hcov a (List.mem_cons_self a t)) (by simp)
  | cons b K ih =>
      intro L hnd hcov
      have hndK := (List.nodup_cons.mp hnd).2
      have hbK : b ∉ K := (List.nodup_cons.mp hnd).1
      have hcov' : ∀ a ∈ L.filter (fun a => !decide (k a = b)), k a ∈ K := by
        intro a ha
        rw [List.mem_filter] at ha
        rcases List.mem_cons.mp (hcov a ha.1) with h | h
        · exfalso
          have := ha.2
          simp [h] at this
        · exact h
      have ihp := ih (L.filter (fun a => !decide (k a = b))) hndK hcov'
      have hff : ∀ b' ∈ K,
          (L.filter (fun a => !decide (k a = b))).filter
            (fun a => decide (k a = b')) =
          L.filter (fun a => decide (k a = b')) := by
        intro b' hb'
        rw [List.filter_filter]
        apply List.filter_congr
        intro a _
        by_cases h : k a = b'
        · have hb'b : b' ≠ b := fun e => hbK (e ▸ hb')
          simp [h, hb'b]
        · simp [h]
      have hmapeq : K.flatMap (fun b' =>
          (L.filter (fun a => !decide (k a = b))).filter
            (fun a => decide (k a = b'))) =
          K.flatMap (fun b' => L.filter (fun a => decide (k a = b'))) := by
        rw [List.flatMap, List.flatMap]
        exact congrArg List.flatten (List.map_congr_left hff)
      rw [List.flatMap_cons, ← hmapeq]
      exact ((List.filter_append_perm (fun a => decide (k a = b)) L).symm).trans
        (List.Perm.append_left _ ihp)

theorem sorted_lt_le_max_getD {s : List ℚ} {x : ℚ}
    (hs : s.Sorted (fun a b => a ≤ b)) {t : ℚ} (ht : t ∈ s) (htx : t < x) :
    t ≤ s.getD (s.countP (fun a => decide (a < x)) - 1) 0 := by
  have hmemA : t ∈ s.filter (fun a => decide (a < x)) :=
    List.mem_filter.mpr ⟨ht, by simpa using htx⟩
  have hAlen : (s.filter (fun a => decide (a < x))).length =
      s.countP (fun a => decide (a < x)) :=
    (List.countP_eq_length_filter _ _).symm
  have hc1 : 1 ≤ s.countP (fun a => decide (a < x)) := by
    have : 0 < (s.filter (fun a => decide (a < x))).length :=
      List.length_pos.mpr (List.ne_nil_of_mem hmemA)
    omega
  have hsplit := sorted_filter_lt_append s x hs
  have hgd1 : s.getD (s.countP (fun a => decide (a < x)) - 1) 0 =
      (s.filter (fun a => decide (a < x)) ++
        s.filter (fun a => !decide (a < x))).getD
        (s.countP (fun a => decide (a < x)) - 1) 0 :=
    congrArg (fun L => L.getD (s.countP (fun a => decide (a < x)) - 1) 0)
      hsplit
  rw [hgd1, List.getD_append _ _ _ _ (by omega), ← hAlen]
  exact sorted_le_last (hs.filter _) hmemA

theorem ratio_countP_lt {B : List ℚ} {m : ℚ} (hmpos : 0 < m) :
    ((B.filter (fun a => decide (0 ≤ a))).map (fun a => a / m)).countP
      (fun t => decide (t < 1)) =
    B.countP (fun a => decide (0 ≤ a) && decide (a < m)) := by
  rw [List.countP_map, List.countP_filter]
  apply List.countP_congr
  intro a _
  by_cases h0 : (0:ℚ) ≤ a
  · by_cases hm' : a < m
    · simp [h0, hm', (div_lt_one hmpos).mpr hm']
    · simp [h0, hm']
      exact (one_le_div hmpos).mpr (le_of_not_lt hm')
  · simp [h0]

theorem ratio_countP_ge {B : List ℚ} {m : ℚ} (hmpos : 0 < m) :
    ((B.filter (fun a => decide (0 ≤ a))).map (fun a => a / m)).countP
      (fun t => decide (1 ≤ t)) =
    B.countP (fun a => decide (m ≤ a)) := by
  rw [List.countP_map, List.countP_filter]
  apply List.countP_congr
  intro a _
  by_cases hm' : m ≤ a
  · have h0 : (0:ℚ) ≤ a := le_trans hmpos.le hm'
    simp [hm', h0, (one_le_div hmpos).mpr hm']
  · by_cases h0 : (0:ℚ) ≤ a
    · simp [hm', h0, fun hh => hm' ((one_le_div hmpos).mp hh)]
      exact (div_lt_one hmpos).mpr (lt_of_not_le hm')
    · simp [hm', h0]

theorem group_countP_le {B : List ℚ} {m : ℚ} (hm : medQ B = some m)
    (hmpos : 0 < m) :
    ((B.filter (fun a => decide (0 ≤ a))).map (fun a => a / m)).countP
      (fun t => decide (t < 1)) ≤
    ((B.filter (fun a => decide (0 ≤ a))).map (fun a => a / m)).countP
      (fun t => decide (1 ≤ t)) := by
  rw [ratio_countP_lt hmpos, ratio_countP_ge hmpos]
  have h1 : B.countP (fun a => decide (0 ≤ a) && decide (a < m)) ≤
      B.countP (fun a => decide (a < m)) := by
    apply List.countP_mono_left
    intro a _ h
    simp only [Bool.and_eq_true] at h
    exact h.2
  have h2 := two_mul_countP_lt_med_le hm
  have h3 := length_le_two_mul_countP_ge hm
  omega

theorem group_equality_witness {B : List ℚ} {m : ℚ} (hm : medQ B = some m)
    (hmpos : 0 < m)
    (heq : ((B.filter (fun a => decide (0 ≤ a))).map (fun a => a / m)).countP
        (fun t => decide (t < 1)) =
      ((B.filter (fun a => decide (0 ≤ a))).map (fun a => a / m)).countP
        (fun t => decide (1 ≤ t))) :
    ∃ r ∈ (B.filter (fun a => decide (0 ≤ a))).map (fun a => a / m),
      r < 1 ∧
      ∀ t ∈ (B.filter (fun a => decide (0 ≤ a))).map (fun a => a / m),
        1 ≤ t → 2 - r ≤ t := by
  rw [ratio_countP_lt hmpos, ratio_countP_ge hmpos] at heq
  have h1 : B.countP (fun a => decide (0 ≤ a) && decide (a < m)) ≤
      B.countP (fun a => decide (a < m)) := by
    apply List.countP_mono_left
    intro a _ h
    simp only [Bool.and_eq_true] at h
    exact h.2
  have h2 := two_mul_countP_lt_med_le hm
  have h3 := length_le_two_mul_countP_ge hm
  have hEq1 : B.countP (fun a => decide (a < m)) =
      B.countP (fun a => decide (m ≤ a)) := by
    have hcompl : B.length = B.countP (fun a => decide (a < m)) +
        B.countP (fun a => decide (m ≤ a)) := by
      rw [List.length_eq_countP_add_countP (p := fun a => decide (a < m))]
      congr 1
      apply List.countP_congr
      intro a _
      simp [not_lt]
    omega
  have hEq0 : B.countP (fun a => decide (0 ≤ a) && decide (a < m)) =
      B.countP (fun a => decide (a < m)) := by omega
  obtain ⟨lo, hi, hloB, hhiB, hlom, hmhi, hsum, hmax, hmin⟩ :=
    med_equality_pair hm hEq1
  have h0lo : (0:ℚ) ≤ lo := by
    have himp : ∀ a ∈ B, (decide (0 ≤ a) && decide (a < m)) = true →
        decide (a < m) = true := by
      intro a _ h
      simp only [Bool.and_eq_true] at h
      exact h.2
    have := countP_eq_imp_rev himp hEq0 lo hloB (by simpa using hlom)
    simp only [Bool.and_eq_true, decide_eq_true_eq] at this
    exact this.1
  refine ⟨lo / m,
    List.mem_map.mpr ⟨lo, List.mem_filter.mpr ⟨hloB, by simpa using h0lo⟩,
      rfl⟩,
    (div_lt_one hmpos).mpr hlom, ?_⟩
  intro t ht h1t
  rw [List.mem_map] at ht
  obtain ⟨a, haf, rfl⟩ := ht
  rw [List.mem_filter] at haf
  have hma : m ≤ a := (one_le_div hmpos).mp h1t
  have hhia : hi ≤ a := hmin a haf.1 hma
  have hstep : (2 * m - lo) / m ≤ a / m :=
    (div_le_div_right hmpos).mpr (by linarith)
  have hrw : 2 - lo / m = (2 * m - lo) / m := by
    field_simp
  rw [hrw]
  exact hstep

/-- If every element of a list is a nonnegative reading divided by the
median of its own group, and every group median is positive, the median of
the whole ratio list is at least 1. -/
theorem grouped_median_ge_one (G : List (List ℚ × ℚ))
    (hG : ∀ p ∈ G, medQ p.1 = some p.2 ∧ 0 < p.2)
    (T : List ℚ)
    (hT : T.Perm (G.flatMap (fun p =>
      (p.1.filter (fun a => decide (0 ≤ a))).map (fun a => a / p.2))))
    (m : ℚ) (hm : medQ T = some m) : 1 ≤ m := by
  have hcLT : T.countP (fun t => decide (t < 1)) =
      (G.map (fun p =>
        ((p.1.filter (fun a => decide (0 ≤ a))).map (fun a => a / p.2)).countP
          (fun t => decide (t < 1)))).sum := by
    rw [hT.countP_eq, countP_flatMap]
  have hcGE : T.countP (fun t => decide (1 ≤ t)) =
      (G.map (fun p =>
        ((p.1.filter (fun a => decide (0 ≤ a))).map (fun a => a / p.2)).countP
          (fun t => decide (1 ≤ t)))).sum := by
    rw [hT.countP_eq, countP_flatMap]
  have hptwise : ∀ p ∈ G,
      ((p.1.filter (fun a => decide (0 ≤ a))).map (fun a => a / p.2)).countP
        (fun t => decide (t < 1)) ≤
      ((p.1.filter (fun a => decide (0 ≤ a))).map (fun a => a / p.2)).countP
        (fun t => decide (1 ≤ t)) :=
    fun p hp => group_countP_le (hG p hp).1 (hG p hp).2
  have hle : T.countP (fun t => decide (t < 1)) ≤
      T.countP (fun t => decide (1 ≤ t)) := by
    rw [hcLT, hcGE]
    exact List.sum_le_sum hptwise
  have hcompl : T.length = T.countP (fun t => decide (t < 1)) +
      T.countP (fun t => decide (1 ≤ t)) := by
    rw [List.length_eq_countP_add_countP (p := fun t => decide (t < 1))]
    congr 1
    apply List.countP_congr
    intro a _
    simp [not_lt]
  have hsorted := sortQ_sorted T
  have hslen := sortQ_length T
  have hscnt1 : (sortQ T).countP (fun t => decide (t < 1)) =
      T.countP (fun t => decide (t < 1)) := (sortQ_perm T).countP_eq _
  have hTne : T ≠ [] := by
    intro h
    rw [h, (medQ_eq_none_iff []).mpr rfl] at hm
    cases hm
  have hTlen0 : T.length ≠ 0 := fun h => hTne (List.length_eq_zero.mp h)
  by_cases hpar : (sortQ T).length % 2 = 1
  · rw [medQ_odd hpar, Option.some.injEq] at hm
    rw [← hm]
    exact sorted_le_getD hsorted (by omega) (by omega)
  · rw [medQ_even (by omega) (by omega), Option.some.injEq] at hm
    have hhi : (1:ℚ) ≤ (sortQ T).getD ((sortQ T).length / 2) 0 :=
      sorted_le_getD hsorted (by omega) (by omega)
    by_cases hceq : (sortQ T).countP (fun t => decide (t < 1)) =
        (sortQ T).length / 2
    · have hTLT : T.countP (fun t => decide (t < 1)) =
          (sortQ T).length / 2 := by omega
      have hTGE : T.countP (fun t => decide (1 ≤ t)) =
          (sortQ T).length / 2 := by omega
      have hsum_eq : (G.map (fun p =>
          ((p.1.filter (fun a => decide (0 ≤ a))).map
            (fun a => a / p.2)).countP (fun t => decide (t < 1)))).sum =
          (G.map (fun p =>
          ((p.1.filter (fun a => decide (0 ≤ a))).map
            (fun a => a / p.2)).countP (fun t => decide (1 ≤ t)))).sum := by
        omega
      have hgroups_eq := sum_map_eq_of_pointwise_le hptwise hsum_eq
      have hidx : (sortQ T).length / 2 < (sortQ T).length := by omega
      have hhiT : (sortQ T).getD ((sortQ T).length / 2) 0 ∈ T := by
        rw [List.getD_eq_getElem _ _ hidx]
        exact (sortQ_perm T).subset (List.getElem_mem hidx)
      obtain ⟨p, hpG, hpmem⟩ := List.mem_flatMap.mp (hT.mem_iff.mp hhiT)
      obtain ⟨r, hrmem, hr1, hrbound⟩ := group_equality_witness
        (hG p hpG).1 (hG p hpG).2 (hgroups_eq p hpG)
      have hhi_ge : 2 - r ≤ (sortQ T).getD ((sortQ T).length / 2) 0 :=
        hrbound _ hpmem hhi
      have hrT : r ∈ T :=
        hT.mem_iff.mpr (List.mem_flatMap.mpr ⟨p, hpG, hrmem⟩)
      have hrs : r ∈ sortQ T := (sortQ_perm T).mem_iff.mpr hrT
      have hrlo : r ≤ (sortQ T).getD ((sortQ T).length / 2 - 1) 0 := by
        have := sorted_lt_le_max_getD hsorted hrs hr1
        rw [hceq] at this
        exact this
      rw [← hm]
      linarith
    · have hlo : (1:ℚ) ≤ (sortQ T).getD ((sortQ T).length / 2 - 1) 0 :=
        sorted_le_getD hsorted (by omega) (by omega)
      rw [← hm]
      linarith

theorem binAcs_nil_of_cleanSrc_nil {clean : List Row} {b : ℚ}
    (h : (cleanSrcRows clean).isEmpty = true) : binAcs clean b = [] := by
  rw [binAcs, List.isEmpty_iff.mp h]
  rfl

theorem expectedFor_of_med {clean : List Row} {p : PF} {b mq : ℚ}
    (hb : poaBin p = some b) (hmq : medQ (binAcs clean b) = some mq) :
    expectedFor clean p = PF.num mq := by
  rw [expectedFor]
  have hne : ¬ (cleanSrcRows clean).isEmpty = true := by
    intro h
    rw [binAcs_nil_of_cleanSrc_nil h, (medQ_eq_none_iff []).mpr rfl] at hmq
    cases hmq
  rw [if_neg hne, hb]
  show (match medQ (binAcs clean b) with
    | none => PF.nan
    | some m => PF.num m) = PF.num mq
  rw [hmq]

theorem expectedFor_pos_spec {clean : List Row} {p : PF}
    (h : (expectedFor clean p).gtb 0 = true) :
    ∃ b mq, poaBin p = some b ∧ medQ (binAcs clean b) = some mq ∧
      0 < mq ∧ expectedFor clean p = PF.num mq := by
  by_cases he : (cleanSrcRows clean).isEmpty
  · have hv : expectedFor clean p = PF.nan := by
      rw [expectedFor, if_pos he]
    rw [hv] at h
    cases h
  · cases hb : poaBin p with
    | none =>
        have hv : expectedFor clean p = PF.nan := by
          rw [expectedFor, if_neg he, hb]
        rw [hv] at h
        cases h
    | some b =>
        cases hmq : medQ (binAcs clean b) with
        | none =>
            have hv : expectedFor clean p = PF.nan := by
              rw [expectedFor, if_neg he, hb]
              show (match medQ (binAcs clean b) with
                | none => PF.nan
                | some m => PF.num m) = PF.nan
              rw [hmq]
            rw [hv] at h
            cases h
        | some mq =>
            have hv := expectedFor_of_med hb hmq
            rw [hv] at h
            have hpos : 0 < mq := by
              simpa [PF.gtb] using h
            exact ⟨b, mq, rfl, hmq, hpos, hv⟩

theorem binAcs_bound {clean : List Row} {b mq : ℚ}
    (hmq : medQ (binAcs clean b) = some mq) : (200:ℚ) ≤ b := by
  have hne : binAcs clean b ≠ [] := by
    intro h
    rw [h, (medQ_eq_none_iff []).mpr rfl] at hmq
    cases hmq
  obtain ⟨a, ha⟩ := List.exists_mem_of_ne_nil _ hne
  rw [binAcs, List.mem_filterMap] at ha
  obtain ⟨r, hr, -⟩ := ha
  rw [List.mem_filter] at hr
  have hr2 : poaBin r.poa = some b := by simpa using hr.2
  have hr1 := hr.1
  rw [cleanSrcRows, List.mem_filter] at hr1
  have hge : r.poa.geb POA_MIN = true := hr1.2
  cases hp : r.poa with
  | nan =>
      rw [hp] at hr2
      cases hr2
  | num q =>
      rw [hp] at hr2 hge
      rw [poaBin, Option.some.injEq] at hr2
      have hq : (200:ℚ) ≤ q := by
        simpa [PF.geb, POA_MIN] using hge
      have h2 : (2:ℤ) ≤ ⌊q / POA_BIN_WIDTH⌋ := by
        rw [Int.le_floor, POA_BIN_WIDTH]
        push_cast
        linarith
      have h2q : (2:ℚ) ≤ (⌊q / POA_BIN_WIDTH⌋ : ℚ) := by
        exact_mod_cast h2
      rw [← hr2]
      rw [POA_BIN_WIDTH] at h2q ⊢
      nlinarith

theorem poaBin_ge_geb {p : PF} {b : ℚ} (hb : poaBin p = some b)
    (h200 : (200:ℚ) ≤ b) : p.geb POA_MIN = true := by
  cases p with
  | nan => cases hb
  | num q =>
      rw [poaBin, Option.some.injEq, POA_BIN_WIDTH] at hb
      have h2 : (2:ℤ) ≤ ⌊q / (100:ℚ)⌋ := by
        by_contra hlt
        push_neg at hlt
        have hle1 : (⌊q / (100:ℚ)⌋ : ℚ) ≤ 1 := by
          have h1 : ⌊q / (100:ℚ)⌋ ≤ 1 := by omega
          exact_mod_cast h1
        rw [← hb] at h200
        nlinarith
      have hfl : (2:ℚ) ≤ (⌊q / (100:ℚ)⌋ : ℚ) := by exact_mod_cast h2
      have hfle : (⌊q / (100:ℚ)⌋ : ℚ) ≤ q / 100 := Int.floor_le _
      have hq : (200:ℚ) ≤ q := by linarith
      simp only [PF.geb, POA_MIN, decide_eq_true_eq]
      linarith

theorem pf_geb_nan (c : ℚ) : PF.nan.geb c = false := rfl

theorem pf_geb_num (a c : ℚ) : (PF.num a).geb c = decide (c ≤ a) := rfl

theorem pf_toQ_nan : PF.nan.toQ? = none := rfl

theorem pf_toQ_num (a : ℚ) : (PF.num a).toQ? = some a := rfl

theorem extract_zip (clean : List Row) (bq mq : ℚ)
    (hexp : ∀ r : Row, poaBin r.poa = some bq →
      expectedFor clean r.poa = PF.num mq) :
    ∀ Ds : List Row,
      (Ds.filter (fun r => decide (poaBin r.poa = some bq) &&
        r.ac.geb 0)).map (fun r =>
          r.ac.toQ?.getD 0 / (expectedFor clean r.poa).toQ?.getD 0) =
      (((Ds.filter (fun r => decide (poaBin r.poa = some bq))).filterMap
        (fun r => r.ac.toQ?)).filter (fun a => decide (0 ≤ a))).map
        (fun a => a / mq) := by
  intro Ds
  induction Ds with
  | nil => rfl
  | cons r Ds ih =>
      by_cases hb : poaBin r.poa = some bq
      · cases ha : r.ac with
        | nan =>
            simp [List.filter_cons, List.filterMap_cons, hb, ha, pf_geb_nan,
              pf_toQ_nan, ih]
        | num a =>
            by_cases h0 : (0:ℚ) ≤ a
            · simp [List.filter_cons, List.filterMap_cons, hb, ha,
                pf_geb_num, pf_toQ_num, h0, ih, hexp r hb]
            · simp [List.filter_cons, List.filterMap_cons, hb, ha,
                pf_geb_num, pf_toQ_num, h0, ih]
      · simp [List.filter_cons, hb, ih]

theorem pf_gtb_num (a c : ℚ) : (PF.num a).gtb c = decide (c < a) := rfl

/-- Scored against itself (with the whole series inside the trailing
window), the POA-matched fouling index is exactly 0: every valid reading's
ratio is its AC power divided by the median AC power of its own POA bin,
and the median of such ratios is at least 1. -/
theorem fouling_self_zero (hasTs : Bool) (D : List Row)
    (hwin : recentE hasTs 7 (enrichRows D D) = enrichRows D D)
    (hvalid : validRows hasTs 7 (enrichRows D D) ≠ []) :
    calculate_fouling_index hasTs 7 (enrichRows D D) = PF.num 0 := by
  have hvr : validRows hasTs 7 (enrichRows D D) =
      (D.filter (fun r => (expectedFor D r.poa).gtb 0 && r.ac.geb 0)).map
        (fun r => (⟨r.ts, r.ac, expectedFor D r.poa⟩ : ERow)) := by
    rw [validRows, hwin, enrichRows, List.filter_map]
    rfl
  have hT : (validRows hasTs 7 (enrichRows D D)).map ratioOf =
      (D.filter (fun r => (expectedFor D r.poa).gtb 0 && r.ac.geb 0)).map
        (fun r => r.ac.toQ?.getD 0 / (expectedFor D r.poa).toQ?.getD 0) := by
    rw [hvr, List.map_map]
    rfl
  have hmapne : (validRows hasTs 7 (enrichRows D D)).map ratioOf ≠ [] :=
    fun h => hvalid (List.map_eq_nil_iff.mp h)
  obtain ⟨m, hmT⟩ := medQ_isSome_of_ne_nil hmapne
  have hkeyperm : (D.filter (fun r =>
      (expectedFor D r.poa).gtb 0 && r.ac.geb 0)).Perm
      ((((D.filter (fun r => (expectedFor D r.poa).gtb 0 && r.ac.geb 0)).map
        (fun r => poaBin r.poa)).dedup).flatMap (fun b =>
        (D.filter (fun r => (expectedFor D r.poa).gtb 0 &&
          r.ac.geb 0)).filter (fun a => decide (poaBin a.poa = b)))) :=
    perm_flatMap_key (fun r => poaBin r.poa) _ _ (List.nodup_dedup _)
      (fun a ha => List.mem_dedup.mpr
        (List.mem_map_of_mem (fun r => poaBin r.poa) ha))
  have hkprops : ∀ b ∈ ((D.filter (fun r =>
      (expectedFor D r.poa).gtb 0 && r.ac.geb 0)).map
        (fun r => poaBin r.poa)).dedup,
      ∃ bq mq, b = some bq ∧ medQ (binAcs D bq) = some mq ∧ 0 < mq := by
    intro b hb
    rw [List.mem_dedup, List.mem_map] at hb
    obtain ⟨r, hr, rfl⟩ := hb
    rw [List.mem_filter, Bool.and_eq_true] at hr
    obtain ⟨bq, mq, hbq, hmq, hpos, -⟩ := expectedFor_pos_spec hr.2.1
    exact ⟨bq, mq, hbq, hmq, hpos⟩
  have hGprop : ∀ p ∈ (((D.filter (fun r =>
      (expectedFor D r.poa).gtb 0 && r.ac.geb 0)).map
        (fun r => poaBin r.poa)).dedup).map (fun b =>
        (binAcs D (b.getD 0), (medQ (binAcs D (b.getD 0))).getD 1)),
      medQ p.1 = some p.2 ∧ 0 < p.2 := by
    intro p hp
    rw [List.mem_map] at hp
    obtain ⟨b, hbk, rfl⟩ := hp
    obtain ⟨bq, mq, rfl, hmq, hpos⟩ := hkprops b hbk
    simp only [Option.getD_some]
    rw [hmq]
    exact ⟨rfl, hpos⟩
  have hgroup_eq : ∀ b ∈ ((D.filter (fun r =>
      (expectedFor D r.poa).gtb 0 && r.ac.geb 0)).map
        (fun r => poaBin r.poa)).dedup,
      ((D.filter (fun r => (expectedFor D r.poa).gtb 0 &&
        r.ac.geb 0)).filter (fun a => decide (poaBin a.poa = b))).map
        (fun r => r.ac.toQ?.getD 0 / (expectedFor D r.poa).toQ?.getD 0) =
      ((binAcs D (b.getD 0)).filter (fun a => decide (0 ≤ a))).map
        (fun a => a / (medQ (binAcs D (b.getD 0))).getD 1) := by
    intro b hbk
    obtain ⟨bq, mq, rfl, hmq, hpos⟩ := hkprops b hbk
    simp only [Option.getD_some]
    rw [hmq]
    simp only [Option.getD_some]
    have hLfil : (D.filter (fun r => (expectedFor D r.poa).gtb 0 &&
        r.ac.geb 0)).filter (fun a => decide (poaBin a.poa = some bq)) =
        D.filter (fun r => decide (poaBin r.poa = some bq) &&
          r.ac.geb 0) := by
      rw [List.filter_filter]
      apply List.filter_congr
      intro r _
      by_cases hbr : poaBin r.poa = some bq
      · have hvexp : expectedFor D r.poa = PF.num mq :=
          expectedFor_of_med hbr hmq
        simp [hbr, hvexp, pf_gtb_num, hpos]
      · simp [hbr]
    have hbin : binAcs D bq =
        (D.filter (fun r => decide (poaBin r.poa = some bq))).filterMap
          (fun r => r.ac.toQ?) := by
      rw [binAcs, cleanSrcRows, List.filter_filter]
      congr 1
      apply List.filter_congr
      intro r _
      by_cases hbr : poaBin r.poa = some bq
      · have hge := poaBin_ge_geb hbr (binAcs_bound hmq)
        simp [hbr, hge]
      · simp [hbr]
    rw [hLfil, hbin]
    exact extract_zip D bq mq (fun r hbr => expectedFor_of_med hbr hmq) D
  have hTperm : ((validRows hasTs 7 (enrichRows D D)).map ratioOf).Perm
      (((((D.filter (fun r => (expectedFor D r.poa).gtb 0 &&
        r.ac.geb 0)).map (fun r => poaBin r.poa)).dedup).map (fun b =>
        (binAcs D (b.getD 0), (medQ (binAcs D (b.getD 0))).getD 1))).flatMap
        (fun p => (p.1.filter (fun a => decide (0 ≤ a))).map
          (fun a => a / p.2))) := by
    rw [hT]
    have h1 := hkeyperm.map (fun r =>
      r.ac.toQ?.getD 0 / (expectedFor D r.poa).toQ?.getD 0)
    rw [List.map_flatMap] at h1
    have h2 : (((D.filter (fun r => (expectedFor D r.poa).gtb 0 &&
        r.ac.geb 0)).map (fun r => poaBin r.poa)).dedup).flatMap (fun b =>
        ((D.filter (fun r => (expectedFor D r.poa).gtb 0 &&
          r.ac.geb 0)).filter (fun a => decide (poaBin a.poa = b))).map
          (fun r => r.ac.toQ?.getD 0 /
            (expectedFor D r.poa).toQ?.getD 0)) =
        (((D.filter (fun r => (expectedFor D r.poa).gtb 0 &&
          r.ac.geb 0)).map (fun r => poaBin r.poa)).dedup).flatMap (fun b =>
          ((binAcs D (b.getD 0)).filter (fun a => decide (0 ≤ a))).map
            (fun a => a / (medQ (binAcs D (b.getD 0))).getD 1)) := by
      rw [List.flatMap, List.flatMap]
      exact congrArg List.flatten (List.map_congr_left hgroup_eq)
    rw [h2] at h1
    have h3 : (((((D.filter (fun r => (expectedFor D r.poa).gtb 0 &&
        r.ac.geb 0)).map (fun r => poaBin r.poa)).dedup).map (fun b =>
        (binAcs D (b.getD 0), (medQ (binAcs D (b.getD 0))).getD 1))).flatMap
        (fun p => (p.1.filter (fun a => decide (0 ≤ a))).map
          (fun a => a / p.2))) =
        (((D.filter (fun r => (expectedFor D r.poa).gtb 0 &&
          r.ac.geb 0)).map (fun r => poaBin r.poa)).dedup).flatMap (fun b =>
          ((binAcs D (b.getD 0)).filter (fun a => decide (0 ≤ a))).map
            (fun a => a / (medQ (binAcs D (b.getD 0))).getD 1)) := by
      rw [List.flatMap_map]
    rw [← h3] at h1
    exact h1
  have h1m : (1:ℚ) ≤ m := grouped_median_ge_one _ hGprop _ hTperm m hmT
  have hie : (validRows hasTs 7 (enrichRows D D)).isEmpty = false := by
    cases hvl : validRows hasTs 7 (enrichRows D D) with
    | nil => exact absurd hvl hvalid
    | cons a t => rfl
  rw [calculate_fouling_index]
  simp only [hie, Bool.false_eq_true, if_false, hmT]
  rw [min_eq_right (by linarith : (1:ℚ) - m ≤ 1),
    max_eq_left (by linarith : (1:ℚ) - m ≤ 0)]

theorem sumSkipna_clip_nonneg (l : List ERow) :
    0 ≤ sumSkipna (l.map (fun r => (r.expected.sub r.ac).clip0)) := by
  rw [sumSkipna]
  apply List.sum_nonneg
  intro x hx
  rw [List.mem_filterMap] at hx
  obtain ⟨p, hp, hpx⟩ := hx
  rw [List.mem_map] at hp
  obtain ⟨r, -, rfl⟩ := hp
  cases hsub : r.expected.sub r.ac with
  | nan => rw [hsub] at hpx; exact absurd hpx (by simp [PF.clip0, PF.toQ?])
  | num q =>
      rw [hsub] at hpx
      have hx : x = max q 0 := by
        simpa [PF.clip0, PF.toQ?] using hpx.symm
      rw [hx]
      exact le_max_right q 0

theorem validRows_nil (hasTs : Bool) (days : ℤ) :
    validRows hasTs days (enrichRows [] []) = [] := by
  cases hasTs with
  | false =>
      rw [validRows, enrichRows, recentE]
      simp [pandasTail]
  | true => rw [validRows, enrichRows, recentE]; simp

/-- C9 (counterexample): with the three-row series (POA 250, AC powers
1 kW, 2 kW, 3 kW) used as its own clean reference, the fouling index is
exactly 0 ("Clean") but the daily energy loss is 1/7 kWh/day, not 0: the
per-bin median (2 kW) sits strictly above the lower readings, so the
clipped shortfalls sum to a positive value. -/
theorem C9_cex :
    run_fouling_analysis true 1
      ([⟨0, PF.num 250, PF.num 1⟩, ⟨0, PF.num 250, PF.num 2⟩,
        ⟨0, PF.num 250, PF.num 3⟩] : List Row)
      (some ([⟨0, PF.num 250, PF.num 1⟩, ⟨0, PF.num 250, PF.num 2⟩,
        ⟨0, PF.num 250, PF.num 3⟩] : List Row)) =
      Except.ok ⟨PF.num 0, "Clean", PF.num (1/7), 2⟩ ∧ (1/7 : ℚ) ≠ 0 :=
  ⟨by with_unfolding_all rfl, by norm_num⟩

/-- C9 (amended): when the operational series is the clean reference
itself (and lies inside the trailing 7-day window with at least one valid
row), the fouling index is exactly 0 and the level is "Clean" — each valid
ratio is a reading over its own bin's median, whose overall median is ≥ 1 —
but the energy-loss estimate is the (generally positive) nonnegative sum of
clipped per-row shortfalls below the bin medians divided by 7, not 0. -/
theorem C9_amended (hasTs : Bool) (dc : ℚ) (D : List Row)
    (hwin : recentE hasTs 7 (enrichRows D D) = enrichRows D D)
    (hvalid : validRows hasTs 7 (enrichRows D D) ≠ []) :
    ∃ res : FResult,
      run_fouling_analysis hasTs dc D (some D) = Except.ok res ∧
      res.fouling_index = PF.num 0 ∧
      res.fouling_level = "Clean" ∧
      res.energy_loss_kwh_per_day = PF.num (sumSkipna ((enrichRows D D).map
        (fun r => (r.expected.sub r.ac).clip0)) / 7) ∧
      0 ≤ sumSkipna ((enrichRows D D).map
        (fun r => (r.expected.sub r.ac).clip0)) / 7 := by
  have hD : D ≠ [] := by
    intro h
    apply hvalid
    rw [h]
    exact validRows_nil hasTs 7
  have hfi : calculate_fouling_index hasTs 7 (enrichRows D D) = PF.num 0 :=
    fouling_self_zero hasTs D hwin hvalid
  have hel : estimate_energy_loss hasTs 7 (enrichRows D D) =
      PF.num (sumSkipna ((enrichRows D D).map
        (fun r => (r.expected.sub r.ac).clip0)) / 7) := by
    rw [estimate_energy_loss, hwin, if_neg (by norm_num : ¬ (7:ℤ) ≤ 0)]
    norm_num
  refine ⟨⟨calculate_fouling_index hasTs 7 (enrichRows D D),
    classify_fouling_level (calculate_fouling_index hasTs 7 (enrichRows D D)),
    estimate_energy_loss hasTs 7 (enrichRows D D),
    (detect_cleaning_events (10/100) ((calculate_pr dc D).map (·.2))).countP
      (fun b => b)⟩, ?_, ?_, ?_, ?_, ?_⟩
  · show (if D.length = 0 then Except.error cleanDfMessage
      else Except.ok (⟨calculate_fouling_index hasTs 7 (enrichRows D D),
        classify_fouling_level
          (calculate_fouling_index hasTs 7 (enrichRows D D)),
        estimate_energy_loss hasTs 7 (enrichRows D D),
        (detect_cleaning_events (10/100)
          ((calculate_pr dc D).map (·.2))).countP
          (fun b => b)⟩ : FResult)) = _
    rw [if_neg (by simpa [List.length_eq_zero] using hD)]
  · exact hfi
  · show classify_fouling_level
      (calculate_fouling_index hasTs 7 (enrichRows D D)) = "Clean"
    rw [hfi, classify_fouling_level, if_pos (by norm_num : (0:ℚ) ≤ 5/100)]
  · exact hel
  · exact div_nonneg (sumSkipna_clip_nonneg _) (by norm_num)

/-- C9 (amended, witness): the three-row self-comparison instantiates the
amended claim; its energy loss is 1/7 kWh/day. -/
theorem C9_amended_witness :
    ∃ res : FResult,
      run_fouling_analysis true 1
        ([⟨0, PF.num 250, PF.num 4⟩, ⟨0, PF.num 250, PF.num 5⟩,
          ⟨0, PF.num 250, PF.num 6⟩] : List Row)
        (some ([⟨0, PF.num 250, PF.num 4⟩, ⟨0, PF.num 250, PF.num 5⟩,
          ⟨0, PF.num 250, PF.num 6⟩] : List Row)) = Except.ok res ∧
      res.fouling_index = PF.num 0 ∧
      res.fouling_level = "Clean" ∧
      res.energy_loss_kwh_per_day = PF.num (sumSkipna ((enrichRows
        ([⟨0, PF.num 250, PF.num 4⟩, ⟨0, PF.num 250, PF.num 5⟩,
          ⟨0, PF.num 250, PF.num 6⟩] : List Row)
        ([⟨0, PF.num 250, PF.num 4⟩, ⟨0, PF.num 250, PF.num 5⟩,
          ⟨0, PF.num 250, PF.num 6⟩] : List Row)).map
        (fun r => (r.expected.sub r.ac).clip0)) / 7) ∧
      0 ≤ sumSkipna ((enrichRows
        ([⟨0, PF.num 250, PF.num 4⟩, ⟨0, PF.num 250, PF.num 5⟩,
          ⟨0, PF.num 250, PF.num 6⟩] : List Row)
        ([⟨0, PF.num 250, PF.num 4⟩, ⟨0, PF.num 250, PF.num 5⟩,
          ⟨0, PF.num 250, PF.num 6⟩] : List Row)).map
        (fun r => (r.expected.sub r.ac).clip0)) / 7 :=
  C9_amended true 1
    ([⟨0, PF.num 250, PF.num 4⟩, ⟨0, PF.num 250, PF.num 5⟩,
      ⟨0, PF.num 250, PF.num 6⟩] : List Row)
    (by with_unfolding_all rfl) (by with_unfolding_all decide)

end InverterJuggle
